import Mathlib

/-!
# Verification of the libfds IPFIX template engine (`src/template_mgr/template.c`)

This file gives a shallow embedding of the template parsing / classification
module and proves the frozen claims about it.  Machine integers are modelled
as `Nat` with explicit `% 2^w` at the points where overflow can occur; raw
memory is modelled as a `List Nat` of bytes read through `byteAt` (which
truncates every cell to one byte).  Fallible C functions returning
`FDS_ERR_*` codes are modelled with `Except`; `FDS_ERR_NOMEM` never occurs
because allocation always succeeds in the model.
-/

set_option maxHeartbeats 1000000

namespace LibFds

/-- Error codes of the module (`FDS_ERR_FORMAT`, `FDS_ERR_NOMEM`).
`FDS_OK` is represented by `Except.ok`. -/
inductive FdsErr where
  | FORMAT
  | NOMEM
deriving DecidableEq, Repr

/-- Modelled from the spec: `type ∈ {Normal, Options}` (the declared template
type; `fds_template_type` values accepted by the parser's assertions). -/
inductive fds_template_type where
  | FDS_TYPE_TEMPLATE
  | FDS_TYPE_TEMPLATE_OPTS
deriving DecidableEq, Repr

/-- Modelled from the spec: the per-field flag bitset
{SCOPE, MULTI_IE, LAST_IE, REVERSE, STRUCTURED, FLOW_KEY, BKEY_COM,
BKEY_SRC, BKEY_DST} (`enum fds_tfield_features` lives in a header that is
not part of the sources; each bit is modelled as one `Bool`). -/
structure TFieldFlags where
  scope : Bool := false
  multi_ie : Bool := false
  last_ie : Bool := false
  flow_key : Bool := false
  structured : Bool := false
  reverse : Bool := false
  bkey_com : Bool := false
  bkey_src : Bool := false
  bkey_dst : Bool := false
deriving DecidableEq, Repr

/-- Modelled from the spec: the per-template flag bitset
{HAS_MULTI_IE, HAS_DYNAMIC, HAS_REVERSE, HAS_STRUCT, HAS_FKEY}. -/
structure TemplateFlags where
  has_multi_ie : Bool := false
  has_dynamic : Bool := false
  has_reverse : Bool := false
  has_structured : Bool := false
  has_fkey : Bool := false
deriving DecidableEq, Repr

/-- Modelled from the spec: the Options-type bitset
{MPROC_STAT, MPROC_RELIABILITY_STAT, EPROC_RELIABILITY_STAT, FKEYS, IE_TYPE}. -/
structure OptsFlags where
  mproc_stat : Bool := false
  mproc_reliability_stat : Bool := false
  eproc_reliability_stat : Bool := false
  fkeys : Bool := false
  ie_type : Bool := false
deriving DecidableEq, Repr

/-- Modelled from the spec: the data-type enum of an IE definition, "enum
including the three structured kinds"; all non-structured kinds behave
identically in this module and are collapsed into `FDS_ET_OTHER`. -/
inductive fds_iemgr_element_type where
  | FDS_ET_BASIC_LIST
  | FDS_ET_SUB_TEMPLATE_LIST
  | FDS_ET_SUB_TEMPLATE_MULTILIST
  | FDS_ET_OTHER
deriving DecidableEq, Repr

/-- Modelled from the spec: an IE definition (`struct fds_iemgr_elem`,
declared in the external IE-manager header): `data_type`, `is_reverse`,
`reverse_elem` (of which only `(scope.pen, id)` is ever read, so it is
modelled as that pair), `scope.pen` (field `pen` here), `id`, `name`. -/
structure fds_iemgr_elem where
  id : Nat
  pen : Nat
  data_type : fds_iemgr_element_type
  is_reverse : Bool
  reverse_elem : Option (Nat × Nat)
  name : Option String
deriving DecidableEq, Repr

/-- One parsed Field Specifier (`struct fds_tfield`).  `def_` is the weak
reference to the IE definition (`def` in C, renamed because `def` is a Lean
keyword).  A `calloc`-zeroed field is the default value. -/
structure fds_tfield where
  id : Nat := 0
  en : Nat := 0
  length : Nat := 0
  offset : Nat := 0
  flags : TFieldFlags := {}
  def_ : Option fds_iemgr_elem := none
deriving DecidableEq, Repr

instance : Inhabited fds_tfield := ⟨{}⟩

/-- A parsed template (`struct fds_template`).  The C structure stores
`fields_cnt_total` alongside the flexible `fields` array; the two are equal
by construction, so the model keeps only the list and derives the count. -/
structure fds_template where
  type : fds_template_type
  id : Nat
  fields_cnt_scope : Nat
  data_length : Nat
  flags : TemplateFlags
  opts_types : OptsFlags
  fields : List fds_tfield
  raw : List Nat
deriving DecidableEq, Repr

/-- `fields_cnt_total` of the C structure: the number of Field Specifiers. -/
def fds_template.fields_cnt_total (t : fds_template) : Nat :=
  t.fields.length

/-- `IPFIX_SET_MIN_DATA_SET_ID`: template ids below 256 are reserved. -/
def IPFIX_SET_MIN_DATA_SET_ID : Nat := 256

/-- `IPFIX_VAR_IE_LENGTH`: sentinel length of a variable-length IE. -/
def IPFIX_VAR_IE_LENGTH : Nat := 65535

/-! ## Reading big-endian integers from raw memory -/

/-- One byte of raw memory.  Cells outside the list read as 0 and every cell
is truncated to its low 8 bits, so that all values behave as `uint8_t`. -/
def byteAt (bytes : List Nat) (i : Nat) : Nat :=
  bytes.getD i 0 % 256

/-- `ntohs`: a big-endian `uint16_t` at byte offset `i`. -/
def read_u16 (bytes : List Nat) (i : Nat) : Nat :=
  byteAt bytes i * 256 + byteAt bytes (i + 1)

/-- `ntohl`: a big-endian `uint32_t` at byte offset `i`. -/
def read_u32 (bytes : List Nat) (i : Nat) : Nat :=
  ((byteAt bytes i * 256 + byteAt bytes (i + 1)) * 256 + byteAt bytes (i + 2)) * 256
    + byteAt bytes (i + 3)

theorem byteAt_lt (bytes : List Nat) (i : Nat) : byteAt bytes i < 256 :=
  Nat.mod_lt _ (by omega)

theorem read_u16_lt (bytes : List Nat) (i : Nat) : read_u16 bytes i < 65536 := by
  have h1 := byteAt_lt bytes i
  have h2 := byteAt_lt bytes (i + 1)
  unfold read_u16
  omega

/-! ## Header and field parsing -/

/-- `template_create_empty`: `calloc` of the template structure; all fields
zeroed.  The `type` component is overwritten by the caller immediately, so
its placeholder value is irrelevant. -/
def template_create_empty (field_cnt : Nat) : fds_template :=
  { type := .FDS_TYPE_TEMPLATE
    id := 0
    fields_cnt_scope := 0
    data_length := 0
    flags := {}
    opts_types := {}
    fields := List.replicate field_cnt {}
    raw := [] }

/-- `template_parse_header`: decode the (Options) template record header.
On success, returns the fresh template and the header length (4 or 6). -/
def template_parse_header (type : fds_template_type) (bytes : List Nat) (len : Nat) :
    Except FdsErr (fds_template × Nat) :=
  let size_normal : Nat := 4
  let size_opts : Nat := 6
  if len < size_normal then
    .error .FORMAT
  else
    let template_id := read_u16 bytes 0
    if template_id < IPFIX_SET_MIN_DATA_SET_ID then
      .error .FORMAT
    else
      let fields_total := read_u16 bytes 2
      if fields_total ≠ 0 ∧ type = .FDS_TYPE_TEMPLATE_OPTS then
        -- not a withdrawal, so it must be a genuine Options Template header
        if len < size_opts then
          .error .FORMAT
        else
          let fields_scope := read_u16 bytes 4
          if fields_scope = 0 ∨ fields_scope > fields_total then
            .error .FORMAT
          else
            .ok ({ template_create_empty fields_total with
                     type := type, id := template_id, fields_cnt_scope := fields_scope },
                 size_opts)
      else
        .ok ({ template_create_empty fields_total with
                 type := type, id := template_id, fields_cnt_scope := 0 },
             size_normal)

/-- The loop body of `template_parse_fields`: parse `n` Field Specifiers
starting at byte offset `pos` with `len_remain` declared bytes remaining.
Returns the parsed fields and the remaining (unconsumed) declared length. -/
def template_parse_fields_go (bytes : List Nat) :
    Nat → Nat → Nat → Except FdsErr (List fds_tfield × Nat)
  | _, len_remain, 0 => .ok ([], len_remain)
  | pos, len_remain, n + 1 =>
    if len_remain < 4 then
      .error .FORMAT
    else
      let flength := read_u16 bytes (pos + 2)
      let fid := read_u16 bytes pos
      if fid &&& 0x8000 = 0 then
        match template_parse_fields_go bytes (pos + 4) (len_remain - 4) n with
        | .error e => .error e
        | .ok (rest, rem) => .ok ({ id := fid, en := 0, length := flength } :: rest, rem)
      else
        -- Enterprise Number follows
        if len_remain - 4 < 4 then
          .error .FORMAT
        else
          let fen := read_u32 bytes (pos + 4)
          match template_parse_fields_go bytes (pos + 8) (len_remain - 8) n with
          | .error e => .error e
          | .ok (rest, rem) =>
            .ok ({ id := fid &&& 0x7FFF, en := fen, length := flength } :: rest, rem)

/-- `template_parse_fields`: parse all Field Specifiers; on success returns
the field list and the number of bytes consumed. -/
def template_parse_fields (bytes : List Nat) (pos : Nat) (len : Nat) (cnt : Nat) :
    Except FdsErr (List fds_tfield × Nat) :=
  match template_parse_fields_go bytes pos len cnt with
  | .error e => .error e
  | .ok (fields, len_remain) => .ok (fields, len - len_remain)

/-! ## Flag derivation (`template_fields_calc_flags`) -/

/-- Update the flags of the field at index `i` (no-op out of range),
modelling `tmplt->fields[i].flags |= ...`. -/
def set_tflags (fields : List fds_tfield) (i : Nat) (g : TFieldFlags → TFieldFlags) :
    List fds_tfield :=
  match fields[i]? with
  | some f => fields.set i { f with flags := g f.flags }
  | none => fields

/-- The scope-marking loop: set SCOPE on the first `fields_scope` fields. -/
def template_mark_scope : List fds_tfield → Nat → List fds_tfield
  | [], _ => []
  | fields, 0 => fields
  | f :: rest, k + 1 =>
    { f with flags := { f.flags with scope := true } } :: template_mark_scope rest k

/-- The body of the inner linear scan of `template_fields_calc_flags`,
written with an explicit iteration count (`fields.length - x` at the top
call) so that the recursion is structural. -/
def same_ie_find_go (fields : List fds_tfield) (fid fen : Nat) : Nat → Nat → Option Nat
  | _, 0 => none
  | x, n + 1 =>
    let g := fields.getD x default
    if g.id = fid ∧ g.en = fen then some x
    else same_ie_find_go fields fid fen (x + 1) n

/-- The inner linear scan of `template_fields_calc_flags`: the first index
`x' ≥ x` (below `fields.length`) whose field has exactly the given IE id
and enterprise number. -/
def same_ie_find (fields : List fds_tfield) (fid fen : Nat) (x : Nat) : Option Nat :=
  same_ie_find_go fields fid fen x (fields.length - x)

/-- The right-to-left MULTI_IE / LAST_IE loop of `template_fields_calc_flags`.
The counter argument is `i + 1` where `i` is the next index to process. -/
def calc_flags_loop : List fds_tfield → Nat → Nat → List fds_tfield
  | fields, _, 0 => fields
  | fields, hash, i + 1 =>
    let f := fields.getD i default
    let my_hash := 2 ^ (f.id % 64)
    if hash &&& my_hash = 0 then
      -- no processed field shares the 64-bit hash: definitely the last
      calc_flags_loop (set_tflags fields i (fun fl => { fl with last_ie := true }))
        (hash ||| my_hash) i
    else
      match same_ie_find fields f.id f.en (i + 1) with
      | some x =>
        let fields := set_tflags fields i (fun fl => { fl with multi_ie := true })
        let fields := set_tflags fields x (fun fl => { fl with multi_ie := true })
        calc_flags_loop fields hash i
      | none =>
        calc_flags_loop (set_tflags fields i (fun fl => { fl with last_ie := true })) hash i

/-- `template_fields_calc_flags`: derive SCOPE, MULTI_IE and LAST_IE. -/
def template_fields_calc_flags (t : fds_template) : fds_template :=
  let fields := template_mark_scope t.fields t.fields_cnt_scope
  { t with fields := calc_flags_loop fields 0 fields.length }

/-! ## Template lookup (`fds_template_cfind` / `fds_template_find`) -/

/-- `fds_template_cfind`: first field with the given enterprise number and
IE id, scanning the whole field array. -/
def fds_template_cfind (t : fds_template) (en : Nat) (id : Nat) : Option fds_tfield :=
  t.fields.find? (fun f => f.id == id && f.en == en)

/-- `fds_template_find`: same search as `fds_template_cfind`. -/
def fds_template_find (t : fds_template) (en : Nat) (id : Nat) : Option fds_tfield :=
  fds_template_cfind t en id

/-! ## Options Template classification -/

/-- `struct opts_req_id`: a required IE identification. -/
structure opts_req_id where
  id : Nat
  en : Nat
deriving DecidableEq, Repr

/-- `opts_has_required`: every listed IE appears among the non-scope fields
(indices `[fields_cnt_scope, fields_cnt_total)`). -/
def opts_has_required (t : fds_template) (recs : List opts_req_id) : Bool :=
  recs.all (fun rec =>
    (t.fields.drop t.fields_cnt_scope).any (fun f => f.id == rec.id && f.en == rec.en))

/-- The counting loop of `opts_has_obs_time`; returns `false` as soon as a
third match is seen, else tests `matches == 2` at the end. -/
def opts_obs_time_loop : List fds_tfield → Nat → Bool
  | [], m => m == 2
  | f :: rest, m =>
    if f.en ≠ 0 then
      opts_obs_time_loop rest m
    else if f.id < 322 ∨ f.id > 325 then
      opts_obs_time_loop rest m
    else
      let m := m + 1
      if m > 2 then false
      else opts_obs_time_loop rest m

/-- `opts_has_obs_time`: exactly two non-scope `observationTime*` IEs
(`en = 0`, `322 ≤ id ≤ 325`). -/
def opts_has_obs_time (t : fds_template) : Bool :=
  opts_obs_time_loop (t.fields.drop t.fields_cnt_scope) 0

/-- The per-pointer scope check of `opts_detect_mproc`: an absent field is
fine; a present one must carry SCOPE and not MULTI_IE. -/
def mproc_scope_ok : Option fds_tfield → Bool
  | none => true
  | some f => f.flags.scope && !f.flags.multi_ie

/-- The `opts_types` value produced by `opts_detect_mproc`.  The helper
calls only inspect `fields` and `fields_cnt_scope`, never `opts_types`, so
computing the final bitset in one expression is the exact C behaviour. -/
def opts_detect_mproc_types (t : fds_template) : OptsFlags :=
  let odid_ptr := fds_template_find t 0 149
  let mpid_ptr := fds_template_find t 0 143
  if odid_ptr = none ∧ mpid_ptr = none then
    t.opts_types
  else if !(mproc_scope_ok odid_ptr && mproc_scope_ok mpid_ptr) then
    t.opts_types
  else
    let o :=
      if opts_has_required t [⟨40, 0⟩, ⟨41, 0⟩, ⟨42, 0⟩] then
        { t.opts_types with mproc_stat := true }
      else t.opts_types
    if !opts_has_required t [⟨164, 0⟩, ⟨165, 0⟩] then
      o
    else if opts_has_obs_time t then
      { o with mproc_reliability_stat := true }
    else o

/-- `opts_detect_mproc`: Metering Process (Reliability) Statistics. -/
def opts_detect_mproc (t : fds_template) : fds_template :=
  { t with opts_types := opts_detect_mproc_types t }

/-- The scope-search loop of `opts_detect_eproc`: some exporter-identifier
IE (130, 131 or 144, in this order) whose first occurrence carries both
SCOPE and LAST_IE. -/
def eproc_eid_found (t : fds_template) : Bool :=
  [130, 131, 144].any (fun eid =>
    match fds_template_find t 0 eid with
    | none => false
    | some f => f.flags.scope && f.flags.last_ie)

/-- The `opts_types` value produced by `opts_detect_eproc`. -/
def opts_detect_eproc_types (t : fds_template) : OptsFlags :=
  if !eproc_eid_found t then
    t.opts_types
  else if !opts_has_required t [⟨166, 0⟩, ⟨167, 0⟩, ⟨168, 0⟩] then
    t.opts_types
  else if opts_has_obs_time t then
    { t.opts_types with eproc_reliability_stat := true }
  else t.opts_types

/-- `opts_detect_eproc`: Exporting Process Reliability Statistics. -/
def opts_detect_eproc (t : fds_template) : fds_template :=
  { t with opts_types := opts_detect_eproc_types t }

/-- The `opts_types` value produced by `opts_detect_flowkey`. -/
def opts_detect_flowkey_types (t : fds_template) : OptsFlags :=
  match fds_template_find t 0 145 with
  | none => t.opts_types
  | some id_ptr =>
    if !id_ptr.flags.scope || id_ptr.flags.multi_ie then
      t.opts_types
    else if opts_has_required t [⟨173, 0⟩] then
      { t.opts_types with fkeys := true }
    else t.opts_types

/-- `opts_detect_flowkey`: Flow Keys Options Template. -/
def opts_detect_flowkey (t : fds_template) : fds_template :=
  { t with opts_types := opts_detect_flowkey_types t }

/-- The per-pointer scope check of `opts_detect_ietype`: both fields must be
present, in the scope, and not MULTI_IE. -/
def ietype_scope_ok : Option fds_tfield → Bool
  | none => false
  | some f => f.flags.scope && !f.flags.multi_ie

/-- The `opts_types` value produced by `opts_detect_ietype`. -/
def opts_detect_ietype_types (t : fds_template) : OptsFlags :=
  let ie_id_ptr := fds_template_find t 0 303
  let pen_ptr := fds_template_find t 0 346
  if !(ietype_scope_ok ie_id_ptr && ietype_scope_ok pen_ptr) then
    t.opts_types
  else if opts_has_required t [⟨339, 0⟩, ⟨344, 0⟩, ⟨341, 0⟩] then
    { t.opts_types with ie_type := true }
  else t.opts_types

/-- `opts_detect_ietype`: Information Element Type Options Template. -/
def opts_detect_ietype (t : fds_template) : fds_template :=
  { t with opts_types := opts_detect_ietype_types t }

/-- `opts_detector`: run all four detectors (they touch disjoint flags). -/
def opts_detector (t : fds_template) : fds_template :=
  opts_detect_ietype (opts_detect_flowkey (opts_detect_eproc (opts_detect_mproc t)))

/-! ## Offsets, data length, template flags (`template_calc_features`) -/

/-- The per-field loop of `template_calc_features`: assign offsets, compute
the minimal data-record length and the HAS_MULTI_IE / HAS_DYNAMIC flags.
`data_len` is a `uint32_t` in C and cannot overflow (at most 65535 fields of
length at most 65535); `field_offset` is a `uint16_t` and is reduced
`% 65536` where the C addition may overflow. -/
def calc_features_loop :
    List fds_tfield → Nat → Nat → TemplateFlags → List fds_tfield × Nat × TemplateFlags
  | [], data_len, _, tflags => ([], data_len, tflags)
  | f :: rest, data_len, field_offset, tflags =>
    let f := { f with offset := field_offset }
    let tflags :=
      if f.flags.multi_ie then { tflags with has_multi_ie := true } else tflags
    if f.length = IPFIX_VAR_IE_LENGTH then
      let tflags := { tflags with has_dynamic := true }
      let res := calc_features_loop rest (data_len + 1) IPFIX_VAR_IE_LENGTH tflags
      (f :: res.1, res.2)
    else
      let field_offset :=
        if field_offset ≠ IPFIX_VAR_IE_LENGTH then (field_offset + f.length) % 65536
        else field_offset
      let res := calc_features_loop rest (data_len + f.length) field_offset tflags
      (f :: res.1, res.2)

/-- `template_calc_features`: per-field flags, offsets, data length, record
size check (IPFIX message header 16 B and set header 4 B), and Options
classification. -/
def template_calc_features (t : fds_template) : Except FdsErr fds_template :=
  let t := template_fields_calc_flags t
  let res := calc_features_loop t.fields 0 0 t.flags
  let max_rec_size : Nat := 65535 - 16 - 4
  if max_rec_size < res.2.1 then
    .error .FORMAT
  else
    let t := { t with fields := res.1, flags := res.2.2 }
    let t := if t.type = .FDS_TYPE_TEMPLATE_OPTS then opts_detector t else t
    .ok { t with data_length := res.2.1 }

/-! ## Parsing a whole template (`fds_template_parse`) -/

/-- `template_raw_copy`: own a copy of the first `len` bytes of raw memory. -/
def template_raw_copy (bytes : List Nat) (len : Nat) : List Nat :=
  (List.range len).map (byteAt bytes)

/-- `fds_template_parse`: parse a raw (Options) template record.  On success
returns the template and the number of bytes really consumed. -/
def fds_template_parse (type : fds_template_type) (bytes : List Nat) (len : Nat) :
    Except FdsErr (fds_template × Nat) :=
  match template_parse_header type bytes len with
  | .error e => .error e
  | .ok (template, len_header) =>
    if template.fields_cnt_total = 0 then
      -- a withdrawal: no fields, just copy the raw header
      .ok ({ template with raw := template_raw_copy bytes len_header }, len_header)
    else
      match template_parse_fields bytes len_header (len - len_header)
          template.fields_cnt_total with
      | .error e => .error e
      | .ok (fields, len_fields) =>
        let len_real := len_header + len_fields
        let template := { template with
          fields := fields, raw := template_raw_copy bytes len_real }
        match template_calc_features template with
        | .error e => .error e
        | .ok template => .ok (template, len_real)

/-- `fds_template_copy`: a deep copy; as a value it is the same template
(`memcpy` of the structure and of `raw`).  `none` models allocation
failure, which never happens in the model. -/
def fds_template_copy (t : fds_template) : Option fds_template :=
  some t

/-! ## IE binding (`fds_template_ies_define`) and biflow classification -/

/-- Modelled from the spec: the external IE dictionary is just the lookup
`(en, id) → IEDefinition?`. -/
def fds_iemgr : Type := Nat → Nat → Option fds_iemgr_elem

/-- `fds_iemgr_elem_find_id`: dictionary lookup. -/
def fds_iemgr_elem_find_id (iemgr : fds_iemgr) (en : Nat) (id : Nat) :
    Option fds_iemgr_elem :=
  iemgr en id

/-- `is_structured`: the three structured data types of RFC 6313. -/
def is_structured (elem : fds_iemgr_elem) : Bool :=
  match elem.data_type with
  | .FDS_ET_BASIC_LIST => true
  | .FDS_ET_SUB_TEMPLATE_LIST => true
  | .FDS_ET_SUB_TEMPLATE_MULTILIST => true
  | .FDS_ET_OTHER => false

/-- ASCII `tolower` (the biflow name matching is ASCII-only). -/
def ascii_tolower (c : Char) : Char :=
  if 'A' ≤ c ∧ c ≤ 'Z' then Char.ofNat (c.toNat + 32) else c

/-- `strncasecmp(s, pat, pat.length) == 0` for a lowercase ASCII pattern:
the first `pat.length` characters of `s` match case-insensitively. -/
def ascii_starts_with_ci (s : String) (pat : String) : Bool :=
  (s.toList.take pat.length).map ascii_tolower == pat.toList

/-- The common-key marking inside `template_ies_biflow`: set BKEY_COM and,
for known names beginning with "source"/"destination", BKEY_SRC/BKEY_DST. -/
def biflow_mark (f : fds_tfield) : fds_tfield :=
  let f := { f with flags := { f.flags with bkey_com := true } }
  match f.def_ with
  | none => f
  | some d =>
    match d.name with
    | none => f
    | some nm =>
      if ascii_starts_with_ci nm "source" then
        { f with flags := { f.flags with bkey_src := true } }
      else if ascii_starts_with_ci nm "destination" then
        { f with flags := { f.flags with bkey_dst := true } }
      else f

/-- The per-field body of the `template_ies_biflow` loop. -/
def template_ies_biflow_field (t : fds_template) (f : fds_tfield) : fds_tfield :=
  match f.def_ with
  | some d =>
    if d.is_reverse then
      f
    else
      match d.reverse_elem with
      | some pr =>
        if fds_template_cfind t pr.1 pr.2 ≠ none then f else biflow_mark f
      | none => biflow_mark f
  | none => biflow_mark f

/-- `template_ies_biflow`: recompute the BKEY_* flags.  The lookup
`fds_template_cfind` only reads IE ids, which the loop never modifies, so
mapping with the pre-loop template is the exact C behaviour. -/
def template_ies_biflow (t : fds_template) : fds_template :=
  { t with fields := t.fields.map (template_ies_biflow_field t) }

/-- The per-field body of the `fds_template_ies_define` loop.  Returns the
updated field and its contributions to `has_reverse` / `has_struct`. -/
def ies_define_step (iemgr : Option fds_iemgr) (preserve : Bool) (f : fds_tfield) :
    fds_tfield × Bool × Bool :=
  let f := { f with flags :=
    { f.flags with bkey_src := false, bkey_dst := false, bkey_com := false } }
  if preserve ∧ f.def_ ≠ none then
    -- keep the definition, just sample its features
    (f, f.flags.reverse, f.flags.structured)
  else
    let f := { f with flags := { f.flags with reverse := false, structured := false } }
    let def_ptr :=
      match iemgr with
      | none => none
      | some g => fds_iemgr_elem_find_id g f.en f.id
    match def_ptr with
    | none => ({ f with def_ := none }, false, false)
    | some d =>
      let f := { f with def_ := some d }
      let f :=
        if d.is_reverse then { f with flags := { f.flags with reverse := true } } else f
      let f :=
        if is_structured d then { f with flags := { f.flags with structured := true } } else f
      (f, d.is_reverse, is_structured d)

/-- The field loop of `fds_template_ies_define`, threading the
`has_reverse` / `has_struct` accumulators left to right. -/
def ies_define_loop (iemgr : Option fds_iemgr) (preserve : Bool) :
    List fds_tfield → Bool → Bool → List fds_tfield × Bool × Bool
  | [], hr, hs => ([], hr, hs)
  | f :: rest, hr, hs =>
    let step := ies_define_step iemgr preserve f
    let res := ies_define_loop iemgr preserve rest (hr || step.2.1) (hs || step.2.2)
    (step.1 :: res.1, res.2)

/-- The HAS_REVERSE / HAS_STRUCT set-mask and clear-mask update block of
`fds_template_ies_define`. -/
def ies_define_apply_flags (t : fds_template) (has_reverse has_struct : Bool) :
    fds_template :=
  let t :=
    if has_reverse || has_struct then
      { t with flags := { t.flags with
          has_reverse := t.flags.has_reverse || has_reverse,
          has_structured := t.flags.has_structured || has_struct } }
    else t
  if !has_reverse || !has_struct then
    { t with flags := { t.flags with
        has_reverse := t.flags.has_reverse && has_reverse,
        has_structured := t.flags.has_structured && has_struct } }
  else t

/-- `fds_template_ies_define`: (re)bind IE definitions, derive
REVERSE / STRUCTURED and HAS_REVERSE / HAS_STRUCT, then biflow flags. -/
def fds_template_ies_define (t : fds_template) (iemgr : Option fds_iemgr)
    (preserve : Bool) : fds_template :=
  if iemgr.isNone && preserve then
    t
  else
    let res := ies_define_loop iemgr preserve t.fields false false
    let t := ies_define_apply_flags { t with fields := res.1 } res.2.1 res.2.2
    if res.2.1 then template_ies_biflow t else t

/-! ## Flow keys -/

/-- The body of the bit-counting loop, with an explicit fuel (`k` itself at
the top call, which bounds the number of halvings) so that the recursion is
structural. -/
def bit_highest_go : Nat → Nat → Nat
  | _, 0 => 0
  | key, fuel + 1 => if key = 0 then 0 else bit_highest_go (key / 2) fuel + 1

/-- The bit-counting loop shared by `fds_template_flowkey_applicable` and
`fds_template_flowkey_cmp`: the number of binary digits of `flowkey`. -/
def bit_highest (k : Nat) : Nat :=
  bit_highest_go k k

/-- `fds_template_flowkey_applicable`: the highest set bit must be below
the field count. -/
def fds_template_flowkey_applicable (t : fds_template) (flowkey : Nat) :
    Except FdsErr Unit :=
  if bit_highest flowkey > t.fields_cnt_total then .error .FORMAT else .ok ()

/-- The field loop of `fds_template_flowkey_define`: bit `i` of the key
sets or clears FLOW_KEY on field `i`. -/
def flowkey_set_loop : List fds_tfield → Nat → List fds_tfield
  | [], _ => []
  | f :: rest, fk =>
    (if fk &&& 1 = 1 then { f with flags := { f.flags with flow_key := true } }
     else { f with flags := { f.flags with flow_key := false } })
      :: flowkey_set_loop rest (fk >>> 1)

/-- `fds_template_flowkey_define`: validate the key, set HAS_FKEY from
`flowkey ≠ 0`, then distribute the key bits over the fields. -/
def fds_template_flowkey_define (t : fds_template) (flowkey : Nat) :
    Except FdsErr fds_template :=
  match fds_template_flowkey_applicable t flowkey with
  | .error e => .error e
  | .ok _ =>
    let t :=
      if flowkey ≠ 0 then { t with flags := { t.flags with has_fkey := true } }
      else { t with flags := { t.flags with has_fkey := false } }
    .ok { t with fields := flowkey_set_loop t.fields flowkey }

/-- The field loop of `fds_template_flowkey_cmp`: 1 on first mismatch. -/
def flowkey_cmp_loop : List fds_tfield → Nat → Nat
  | [], _ => 0
  | f :: rest, fk =>
    let value_exp : Bool := fk &&& 1 ≠ 0
    let value_real : Bool := f.flags.flow_key
    if value_exp ≠ value_real then 1 else flowkey_cmp_loop rest (fk >>> 1)

/-- `fds_template_flowkey_cmp`: 0 iff the FLOW_KEY annotation matches what
`fds_template_flowkey_define` with this key would produce. -/
def fds_template_flowkey_cmp (t : fds_template) (flowkey : Nat) : Nat :=
  let value_exp : Bool := flowkey ≠ 0
  let value_real : Bool := t.flags.has_fkey
  if value_exp = false ∧ value_real = false then 0
  else if value_exp ≠ value_real then 1
  else if bit_highest flowkey > t.fields_cnt_total then 1
  else flowkey_cmp_loop t.fields flowkey

/-! ## Basic facts about the header parser -/

/-- A withdrawal header (field count 0) parses to an empty template of
header length 4, for both declared types, without reading byte 4 or 5. -/
theorem template_parse_header_withdrawal (type : fds_template_type) (bytes : List Nat)
    (len : Nat) (hlen : 4 ≤ len) (hid : 256 ≤ read_u16 bytes 0)
    (hcnt : read_u16 bytes 2 = 0) :
    template_parse_header type bytes len =
      .ok ({ template_create_empty 0 with
               type := type, id := read_u16 bytes 0, fields_cnt_scope := 0 }, 4) := by
  simp only [template_parse_header, IPFIX_SET_MIN_DATA_SET_ID, hcnt]
  rw [if_neg (by omega), if_neg (by omega), if_neg (by simp)]

/--
**C4.** For every input of declared length at least 4 whose first 4 bytes
encode a big-endian template id ≥ 256 and field count 0, `fds_template_parse`
returns a template with `fields_cnt_total = 0` and `fields_cnt_scope = 0` and
reports exactly 4 consumed bytes, for both declared template types; and the
result depends only on the first 4 bytes of the input (in particular the
scope-count bytes are never read, even for an Options withdrawal).
-/
theorem claim_C4 (type : fds_template_type) (bytes : List Nat) (len : Nat)
    (hlen : 4 ≤ len) (hid : 256 ≤ read_u16 bytes 0) (hcnt : read_u16 bytes 2 = 0) :
    ∃ t, fds_template_parse type bytes len = .ok (t, 4) ∧
      t.fields_cnt_total = 0 ∧ t.fields_cnt_scope = 0 ∧
      ∀ bytes2 len2, 4 ≤ len2 → (∀ i, i < 4 → byteAt bytes2 i = byteAt bytes i) →
        fds_template_parse type bytes2 len2 = .ok (t, 4) := by
  refine ⟨{ template_create_empty 0 with
              type := type, id := read_u16 bytes 0, fields_cnt_scope := 0,
              raw := template_raw_copy bytes 4 }, ?_, rfl, rfl, ?_⟩
  · simp only [fds_template_parse, template_parse_header_withdrawal type bytes len hlen hid hcnt]
    rfl
  · intro bytes2 len2 hlen2 hagree
    have h16 : ∀ j, j + 1 < 4 → read_u16 bytes2 j = read_u16 bytes j := by
      intro j hj
      unfold read_u16
      rw [hagree j (by omega), hagree (j + 1) (by omega)]
    have hraw : template_raw_copy bytes2 4 = template_raw_copy bytes 4 := by
      unfold template_raw_copy
      apply List.map_congr_left
      intro i hi
      exact hagree i (by simpa using hi)
    simp only [fds_template_parse,
      template_parse_header_withdrawal type bytes2 len2 hlen2
        (by rw [h16 0 (by omega)]; exact hid) (by rw [h16 2 (by omega)]; exact hcnt),
      h16 0 (by omega), hraw]
    rfl

/--
**C6.** For every Options-type input of declared length at least 6 whose
header encodes a template id ≥ 256, a field count > 0, and a scope count that
is 0 or greater than the field count, `fds_template_parse` returns the FORMAT
error and no template (the model returns `Except.error`, which carries no
template and no consumed length, exactly as the C function leaves its two
output parameters untouched on error).
-/
theorem claim_C6 (bytes : List Nat) (len : Nat)
    (hlen : 6 ≤ len) (hid : 256 ≤ read_u16 bytes 0) (hcnt : 0 < read_u16 bytes 2)
    (hscope : read_u16 bytes 4 = 0 ∨ read_u16 bytes 2 < read_u16 bytes 4) :
    fds_template_parse .FDS_TYPE_TEMPLATE_OPTS bytes len = .error .FORMAT := by
  have hh : template_parse_header .FDS_TYPE_TEMPLATE_OPTS bytes len = .error .FORMAT := by
    simp only [template_parse_header, IPFIX_SET_MIN_DATA_SET_ID]
    rw [if_neg (by omega), if_neg (by omega),
      if_pos (by exact ⟨by omega, trivial⟩), if_neg (by omega), if_pos (by omega)]
  simp only [fds_template_parse, hh]

/-! ## Facts about the flow-key operations -/

theorem bit_highest_go_eq : ∀ key fuel, key ≤ fuel →
    bit_highest_go key fuel = bit_highest key := by
  intro key
  induction key using Nat.strong_induction_on with
  | _ key ih =>
    intro fuel hle
    cases key with
    | zero =>
      cases fuel with
      | zero => rfl
      | succ f => rfl
    | succ k' =>
      cases fuel with
      | zero => omega
      | succ f =>
        show (if k' + 1 = 0 then 0 else bit_highest_go ((k' + 1) / 2) f + 1) = _
        rw [if_neg (by omega)]
        have h1 := ih ((k' + 1) / 2) (by omega) f (by omega)
        have h2 := ih ((k' + 1) / 2) (by omega) k' (by omega)
        have hstep : bit_highest (k' + 1) =
            if k' + 1 = 0 then 0 else bit_highest_go ((k' + 1) / 2) k' + 1 := rfl
        rw [hstep, if_neg (by omega), h1, h2]

theorem bit_highest_eq (k : Nat) :
    bit_highest k = if k = 0 then 0 else bit_highest (k / 2) + 1 := by
  cases k with
  | zero => rfl
  | succ k' =>
    have hstep : bit_highest (k' + 1) =
        if k' + 1 = 0 then 0 else bit_highest_go ((k' + 1) / 2) k' + 1 := rfl
    rw [hstep, if_neg (by omega), if_neg (by omega),
      bit_highest_go_eq ((k' + 1) / 2) k' (by omega)]

/-- The C bit-counting loop computes the number of binary digits:
`bit_highest k ≤ m` iff `k < 2 ^ m`. -/
theorem bit_highest_le_iff (m : Nat) : ∀ k, bit_highest k ≤ m ↔ k < 2 ^ m := by
  induction m with
  | zero =>
    intro k
    rw [bit_highest_eq]
    by_cases h : k = 0 <;> simp [h]
  | succ m ih =>
    intro k
    rw [bit_highest_eq]
    by_cases h : k = 0
    · simp [h, Nat.pos_pow_of_pos]
    · rw [if_neg h, Nat.succ_le_succ_iff, ih (k / 2), Nat.pow_succ,
        Nat.div_lt_iff_lt_mul (by omega : 0 < 2)]

theorem flowkey_set_loop_length (l : List fds_tfield) :
    ∀ fk, (flowkey_set_loop l fk).length = l.length := by
  induction l with
  | nil => intro fk; rfl
  | cons f rest ih => intro fk; simp [flowkey_set_loop, ih]

/-- After distributing a key over the fields, the comparison loop agrees. -/
theorem flowkey_cmp_loop_set (l : List fds_tfield) :
    ∀ fk, flowkey_cmp_loop (flowkey_set_loop l fk) fk = 0 := by
  induction l with
  | nil => intro fk; rfl
  | cons f rest ih =>
    intro fk
    by_cases h : fk &&& 1 = 1
    · simp [flowkey_set_loop, flowkey_cmp_loop, h, ih]
    · have h0 : fk &&& 1 = 0 := by
        have := Nat.and_one_is_mod fk
        omega
      simp [flowkey_set_loop, flowkey_cmp_loop, h0, ih]

/--
**C7.** For every template `t` and every key `k` whose highest set bit index
is below `fields_cnt_total` (equivalently `k < 2 ^ fields_cnt_total`, which
also admits `k = 0`), `fds_template_flowkey_define` succeeds and
`fds_template_flowkey_cmp` on the resulting template returns 0.
-/
theorem claim_C7 (t : fds_template) (k : Nat) (hk : k < 2 ^ t.fields_cnt_total) :
    ∃ t2, fds_template_flowkey_define t k = .ok t2 ∧
      fds_template_flowkey_cmp t2 k = 0 := by
  have hle : ¬ bit_highest k > t.fields_cnt_total := by
    have := (bit_highest_le_iff t.fields_cnt_total k).mpr hk
    omega
  have happ : fds_template_flowkey_applicable t k = .ok () := by
    unfold fds_template_flowkey_applicable
    rw [if_neg hle]
  by_cases hk0 : k = 0
  · subst hk0
    refine ⟨_, by simp only [fds_template_flowkey_define, happ]; rfl, ?_⟩
    simp [fds_template_flowkey_cmp]
  · refine ⟨_, by simp only [fds_template_flowkey_define, happ]; rfl, ?_⟩
    simp only [fds_template_flowkey_cmp, hk0]
    have hcnt : (fds_template.mk t.type t.id t.fields_cnt_scope t.data_length
        { t.flags with has_fkey := true } t.opts_types
        (flowkey_set_loop t.fields k) t.raw).fields_cnt_total =
        t.fields_cnt_total := by
      simp [fds_template.fields_cnt_total, flowkey_set_loop_length]
    simp [hk0, hcnt, hle, flowkey_cmp_loop_set]

/-! ## Characterising `calc_features_loop` -/

/-- The contribution of one field to the minimal data-record length: 1 for a
variable-length field, else the fixed length. -/
def tfield_contrib (f : fds_tfield) : Nat :=
  if f.length = IPFIX_VAR_IE_LENGTH then 1 else f.length

/-- The pure offset-assignment part of `calc_features_loop`. -/
def offsets_assign : List fds_tfield → Nat → List fds_tfield
  | [], _ => []
  | f :: rest, off =>
    { f with offset := off } ::
      offsets_assign rest
        (if f.length = IPFIX_VAR_IE_LENGTH then IPFIX_VAR_IE_LENGTH
         else if off ≠ IPFIX_VAR_IE_LENGTH then (off + f.length) % 65536 else off)

theorem calc_features_loop_fields :
    ∀ (l : List fds_tfield) (dl off : Nat) (fl : TemplateFlags),
      (calc_features_loop l dl off fl).1 = offsets_assign l off := by
  intro l
  induction l with
  | nil => intro dl off fl; rfl
  | cons f rest ih =>
    intro dl off fl
    by_cases h : f.length = IPFIX_VAR_IE_LENGTH <;>
      simp [calc_features_loop, offsets_assign, h, ih]

theorem calc_features_loop_data_len :
    ∀ (l : List fds_tfield) (dl off : Nat) (fl : TemplateFlags),
      (calc_features_loop l dl off fl).2.1 = dl + (l.map tfield_contrib).sum := by
  intro l
  induction l with
  | nil => intro dl off fl; simp [calc_features_loop]
  | cons f rest ih =>
    intro dl off fl
    by_cases h : f.length = IPFIX_VAR_IE_LENGTH <;>
      simp [calc_features_loop, tfield_contrib, h, ih] <;> omega

theorem calc_features_loop_dynamic :
    ∀ (l : List fds_tfield) (dl off : Nat) (fl : TemplateFlags),
      (calc_features_loop l dl off fl).2.2.has_dynamic =
        (fl.has_dynamic || l.any (fun f => f.length == IPFIX_VAR_IE_LENGTH)) := by
  intro l
  induction l with
  | nil => intro dl off fl; simp [calc_features_loop]
  | cons f rest ih =>
    intro dl off fl
    by_cases h : f.length = IPFIX_VAR_IE_LENGTH
    · by_cases hm : f.flags.multi_ie <;> simp [calc_features_loop, h, hm, ih]
    · have hb : (f.length == IPFIX_VAR_IE_LENGTH) = false := beq_eq_false_iff_ne.mpr h
      by_cases hm : f.flags.multi_ie <;> simp [calc_features_loop, h, hm, ih, hb]

theorem offsets_assign_map_length (l : List fds_tfield) :
    ∀ off, (offsets_assign l off).map (fun f => f.length) = l.map (fun f => f.length) := by
  induction l with
  | nil => intro off; rfl
  | cons f rest ih => intro off; simp [offsets_assign, ih]

theorem offsets_assign_length (l : List fds_tfield) :
    ∀ off, (offsets_assign l off).length = l.length := by
  intro off
  have := congrArg List.length (offsets_assign_map_length l off)
  simpa using this

/-! ## The Options detectors only touch `opts_types` -/

theorem exists_opts_mproc (t : fds_template) :
    ∃ o, opts_detect_mproc t = { t with opts_types := o } :=
  ⟨opts_detect_mproc_types t, rfl⟩

theorem exists_opts_eproc (t : fds_template) :
    ∃ o, opts_detect_eproc t = { t with opts_types := o } :=
  ⟨opts_detect_eproc_types t, rfl⟩

theorem exists_opts_flowkey (t : fds_template) :
    ∃ o, opts_detect_flowkey t = { t with opts_types := o } :=
  ⟨opts_detect_flowkey_types t, rfl⟩

theorem exists_opts_ietype (t : fds_template) :
    ∃ o, opts_detect_ietype t = { t with opts_types := o } :=
  ⟨opts_detect_ietype_types t, rfl⟩

/-- `opts_detector` only changes the `opts_types` component. -/
theorem exists_opts_detector (t : fds_template) :
    ∃ o, opts_detector t = { t with opts_types := o } := by
  obtain ⟨o1, h1⟩ := exists_opts_mproc t
  obtain ⟨o2, h2⟩ := exists_opts_eproc { t with opts_types := o1 }
  obtain ⟨o3, h3⟩ := exists_opts_flowkey { t with opts_types := o2 }
  obtain ⟨o4, h4⟩ := exists_opts_ietype { t with opts_types := o3 }
  exact ⟨o4, by unfold opts_detector; rw [h1, h2, h3, h4]⟩

/-! ## Inversion of the parsing pipeline -/

theorem template_fields_calc_flags_flags (t : fds_template) :
    (template_fields_calc_flags t).flags = t.flags := rfl

theorem template_fields_calc_flags_type (t : fds_template) :
    (template_fields_calc_flags t).type = t.type := rfl

/-- Inversion of a successful `template_parse_header`. -/
theorem template_parse_header_ok_inv (type : fds_template_type) (bytes : List Nat)
    (len : Nat) (t0 : fds_template) (hdr : Nat)
    (h : template_parse_header type bytes len = .ok (t0, hdr)) :
    t0.type = type ∧ t0.id = read_u16 bytes 0 ∧
    t0.fields = List.replicate (read_u16 bytes 2) {} ∧
    t0.data_length = 0 ∧ t0.flags = {} ∧ t0.opts_types = {} ∧ t0.raw = [] ∧
    t0.fields_cnt_scope ≤ read_u16 bytes 2 ∧
    4 ≤ len ∧ 256 ≤ read_u16 bytes 0 ∧ (hdr = 4 ∨ hdr = 6) ∧ hdr ≤ len := by
  simp only [template_parse_header, IPFIX_SET_MIN_DATA_SET_ID] at h
  split at h
  · exact absurd h (by simp)
  split at h
  · exact absurd h (by simp)
  split at h
  · split at h
    · exact absurd h (by simp)
    split at h
    · exact absurd h (by simp)
    · simp only [Except.ok.injEq, Prod.mk.injEq] at h
      obtain ⟨ht, hh⟩ := h
      subst ht
      refine ⟨rfl, rfl, rfl, rfl, rfl, rfl, rfl,
        show read_u16 bytes 4 ≤ read_u16 bytes 2 by omega, by omega, by omega, by omega,
        by omega⟩
  · simp only [Except.ok.injEq, Prod.mk.injEq] at h
    obtain ⟨ht, hh⟩ := h
    subst ht
    refine ⟨rfl, rfl, rfl, rfl, rfl, rfl, rfl,
      show 0 ≤ read_u16 bytes 2 from Nat.zero_le _, by omega, by omega, by omega,
      by omega⟩

/-- Inversion of a successful `fds_template_parse` into its stages. -/
theorem fds_template_parse_ok_inv (type : fds_template_type) (bytes : List Nat)
    (len : Nat) (t : fds_template) (n : Nat)
    (h : fds_template_parse type bytes len = .ok (t, n)) :
    ∃ t0 hdr, template_parse_header type bytes len = .ok (t0, hdr) ∧
      ((t0.fields_cnt_total = 0 ∧ n = hdr ∧
          t = { t0 with raw := template_raw_copy bytes hdr }) ∨
       (t0.fields_cnt_total ≠ 0 ∧
        ∃ fields len_fields,
          template_parse_fields bytes hdr (len - hdr) t0.fields_cnt_total =
            .ok (fields, len_fields) ∧
          n = hdr + len_fields ∧
          template_calc_features
            { t0 with fields := fields,
                      raw := template_raw_copy bytes (hdr + len_fields) } = .ok t)) := by
  unfold fds_template_parse at h
  cases hh : template_parse_header type bytes len with
  | error e =>
    rw [hh] at h
    exact absurd h (by simp)
  | ok v =>
    obtain ⟨t0, hdr⟩ := v
    rw [hh] at h
    refine ⟨t0, hdr, rfl, ?_⟩
    simp only [] at h
    by_cases h0 : t0.fields_cnt_total = 0
    · rw [if_pos h0] at h
      simp only [Except.ok.injEq, Prod.mk.injEq] at h
      exact Or.inl ⟨h0, h.2.symm, h.1.symm⟩
    · rw [if_neg h0] at h
      refine Or.inr ⟨h0, ?_⟩
      cases hf : template_parse_fields bytes hdr (len - hdr) t0.fields_cnt_total with
      | error e =>
        rw [hf] at h
        exact absurd h (by simp)
      | ok v2 =>
        obtain ⟨fields, len_fields⟩ := v2
        rw [hf] at h
        simp only [] at h
        cases hc : template_calc_features
            { t0 with fields := fields,
                      raw := template_raw_copy bytes (hdr + len_fields) } with
        | error e =>
          rw [hc] at h
          exact absurd h (by simp)
        | ok t2 =>
          rw [hc] at h
          simp only [Except.ok.injEq, Prod.mk.injEq] at h
          exact ⟨fields, len_fields, rfl, h.2.symm, by rw [← h.1]; exact hc⟩

/-- Inversion of a successful `template_calc_features`. -/
theorem template_calc_features_ok_inv (t1 t : fds_template)
    (h : template_calc_features t1 = .ok t) :
    (calc_features_loop (template_fields_calc_flags t1).fields 0 0
        (template_fields_calc_flags t1).flags).2.1 ≤ 65515 ∧
    ∃ o, t = { template_fields_calc_flags t1 with
               fields := (calc_features_loop (template_fields_calc_flags t1).fields 0 0
                   (template_fields_calc_flags t1).flags).1,
               flags := (calc_features_loop (template_fields_calc_flags t1).fields 0 0
                   (template_fields_calc_flags t1).flags).2.2,
               data_length := (calc_features_loop (template_fields_calc_flags t1).fields 0 0
                   (template_fields_calc_flags t1).flags).2.1,
               opts_types := o } := by
  simp only [template_calc_features] at h
  split at h
  · exact absurd h (by simp)
  · next hle =>
    refine ⟨by omega, ?_⟩
    split at h
    · next hty =>
      obtain ⟨o, ho⟩ := exists_opts_detector
        { template_fields_calc_flags t1 with
          fields := (calc_features_loop (template_fields_calc_flags t1).fields 0 0
              (template_fields_calc_flags t1).flags).1,
          flags := (calc_features_loop (template_fields_calc_flags t1).fields 0 0
              (template_fields_calc_flags t1).flags).2.2 }
      rw [ho] at h
      simp only [Except.ok.injEq] at h
      exact ⟨o, h.symm⟩
    · simp only [Except.ok.injEq] at h
      exact ⟨_, h.symm⟩

instance {ε α : Type} [DecidableEq ε] [DecidableEq α] : DecidableEq (Except ε α) :=
  fun a b =>
    match a, b with
    | .error e1, .error e2 => decidable_of_iff (e1 = e2) (by simp)
    | .ok v1, .ok v2 => decidable_of_iff (v1 = v2) (by simp)
    | .error _, .ok _ => isFalse (by simp)
    | .ok _, .error _ => isFalse (by simp)

theorem offsets_assign_map_contrib (l : List fds_tfield) (off : Nat) :
    (offsets_assign l off).map tfield_contrib = l.map tfield_contrib := by
  have h := offsets_assign_map_length l off
  have e1 : (offsets_assign l off).map tfield_contrib =
      ((offsets_assign l off).map (fun f => f.length)).map
        (fun n => if n = IPFIX_VAR_IE_LENGTH then 1 else n) := by
    rw [List.map_map]; rfl
  have e2 : l.map tfield_contrib =
      (l.map (fun f => f.length)).map
        (fun n => if n = IPFIX_VAR_IE_LENGTH then 1 else n) := by
    rw [List.map_map]; rfl
  rw [e1, e2, h]

theorem offsets_assign_exists_var (l : List fds_tfield) (off : Nat) :
    (∃ f ∈ offsets_assign l off, f.length = IPFIX_VAR_IE_LENGTH) ↔
      ∃ f ∈ l, f.length = IPFIX_VAR_IE_LENGTH := by
  constructor
  · rintro ⟨f, hf, hlen⟩
    have hm : f.length ∈ (offsets_assign l off).map (fun f => f.length) :=
      List.mem_map_of_mem _ hf
    rw [offsets_assign_map_length, List.mem_map] at hm
    obtain ⟨g, hg, hgl⟩ := hm
    exact ⟨g, hg, by rw [hgl, hlen]⟩
  · rintro ⟨f, hf, hlen⟩
    have hm : f.length ∈ l.map (fun f => f.length) := List.mem_map_of_mem _ hf
    rw [← offsets_assign_map_length l off, List.mem_map] at hm
    obtain ⟨g, hg, hgl⟩ := hm
    exact ⟨g, hg, by rw [hgl, hlen]⟩

/--
**C3.** For every successfully parsed template, `data_length` equals the sum
over all fields of (`length` if `length ≠ 65535`, else 1), and HAS_DYNAMIC
is set iff some field has `length = 65535`.
-/
theorem claim_C3 (type : fds_template_type) (bytes : List Nat) (len : Nat)
    (t : fds_template) (n : Nat)
    (h : fds_template_parse type bytes len = .ok (t, n)) :
    t.data_length = (t.fields.map tfield_contrib).sum ∧
    (t.flags.has_dynamic = true ↔ ∃ f ∈ t.fields, f.length = IPFIX_VAR_IE_LENGTH) := by
  obtain ⟨t0, hdr, hh, hcase⟩ := fds_template_parse_ok_inv type bytes len t n h
  obtain ⟨-, -, -, hdl, hfl, -, -, -, -, -, -, -⟩ :=
    template_parse_header_ok_inv type bytes len t0 hdr hh
  rcases hcase with ⟨h0, -, ht⟩ | ⟨-, fields, lf, -, -, hc⟩
  · have hnil : t0.fields = [] := List.length_eq_zero.mp h0
    subst ht
    constructor
    · simp only [hnil, hdl, List.map_nil, List.sum_nil]
    · simp [hnil, hfl]
  · obtain ⟨hle, o, ho⟩ := template_calc_features_ok_inv _ _ hc
    subst ho
    have hfl2 : (template_fields_calc_flags
        { t0 with fields := fields,
                  raw := template_raw_copy bytes (hdr + lf) }).flags = t0.flags := rfl
    constructor
    · show (calc_features_loop _ 0 0 _).2.1 = ((calc_features_loop _ 0 0 _).1.map _).sum
      rw [calc_features_loop_data_len, calc_features_loop_fields, offsets_assign_map_contrib]
      omega
    · show (calc_features_loop _ 0 0 _).2.2.has_dynamic = true ↔
        ∃ f ∈ (calc_features_loop _ 0 0 _).1, f.length = IPFIX_VAR_IE_LENGTH
      rw [calc_features_loop_dynamic, calc_features_loop_fields, offsets_assign_exists_var,
        hfl2, hfl]
      simp [List.any_eq_true]

/-- The parse of spec scenario S1 (Normal template, IEs 8 and 12, length 4
each), used as a concrete instance by several witnesses. -/
def S1_bytes : List Nat := [1, 0, 0, 2, 0, 8, 0, 4, 0, 12, 0, 4]

/-- The template value that `fds_template_parse` produces on `S1_bytes`. -/
def S1_tmplt : fds_template :=
  { type := .FDS_TYPE_TEMPLATE
    id := 256
    fields_cnt_scope := 0
    data_length := 8
    flags := {}
    opts_types := {}
    fields := [{ id := 8, en := 0, length := 4, offset := 0, flags := { last_ie := true } },
               { id := 12, en := 0, length := 4, offset := 4, flags := { last_ie := true } }]
    raw := S1_bytes }

theorem claim_C3_witness :
    fds_template_parse .FDS_TYPE_TEMPLATE S1_bytes 12 = .ok (S1_tmplt, 12) ∧
    (S1_tmplt.data_length = (S1_tmplt.fields.map tfield_contrib).sum ∧
     (S1_tmplt.flags.has_dynamic = true ↔
        ∃ f ∈ S1_tmplt.fields, f.length = IPFIX_VAR_IE_LENGTH)) :=
  ⟨by decide, claim_C3 .FDS_TYPE_TEMPLATE S1_bytes 12 S1_tmplt 12 (by decide)⟩

theorem claim_C7_witness :
    1 < 2 ^ S1_tmplt.fields_cnt_total ∧
    ∃ t2, fds_template_flowkey_define S1_tmplt 1 = .ok t2 ∧
      fds_template_flowkey_cmp t2 1 = 0 :=
  ⟨by decide, claim_C7 S1_tmplt 1 (by decide)⟩

/-! ## The offset layout (claim C2) -/

theorem offsets_assign_lenAt (l : List fds_tfield) :
    ∀ (j : Nat) (c : Nat),
      ((offsets_assign l c).getD j default).length = (l.getD j default).length := by
  induction l with
  | nil => intro j c; rfl
  | cons f rest ih =>
    intro j c
    cases j with
    | zero => rfl
    | succ j' => simp only [offsets_assign, List.getD_cons_succ]; exact ih j' _

/-- Once the cursor is the sentinel, every assigned offset is the sentinel. -/
theorem offsets_assign_sentinel (l : List fds_tfield) :
    ∀ f ∈ offsets_assign l IPFIX_VAR_IE_LENGTH, f.offset = IPFIX_VAR_IE_LENGTH := by
  induction l with
  | nil => intro f hf; simp [offsets_assign] at hf
  | cons g rest ih =>
    intro f hf
    have hcur : (if g.length = IPFIX_VAR_IE_LENGTH then IPFIX_VAR_IE_LENGTH
        else if IPFIX_VAR_IE_LENGTH ≠ IPFIX_VAR_IE_LENGTH then
          (IPFIX_VAR_IE_LENGTH + g.length) % 65536
        else IPFIX_VAR_IE_LENGTH) = IPFIX_VAR_IE_LENGTH := by
      split <;> simp
    simp only [offsets_assign, hcur, List.mem_cons] at hf
    rcases hf with hf | hf
    · rw [hf]
    · exact ih f hf

/-- A prefix of fixed-length fields contributes its lengths to the total
minimal data length, so the prefix sum is bounded by it. -/
theorem prefix_len_le_contrib (l : List fds_tfield) :
    ∀ i, i ≤ l.length →
      (∀ j, j < i → (l.getD j default).length ≠ IPFIX_VAR_IE_LENGTH) →
      ((l.take i).map (fun f => f.length)).sum ≤ (l.map tfield_contrib).sum := by
  induction l with
  | nil =>
    intro i hi _
    simp at hi
    subst hi
    simp
  | cons f rest ih =>
    intro i hi hfix
    cases i with
    | zero => simp
    | succ i' =>
      have h0 : f.length ≠ IPFIX_VAR_IE_LENGTH := hfix 0 (by omega)
      have hcontrib : tfield_contrib f = f.length := by
        unfold tfield_contrib
        rw [if_neg h0]
      have := ih i' (by simpa using hi) (fun j hj => hfix (j + 1) (by omega))
      simp only [List.take_succ_cons, List.map_cons, List.sum_cons, hcontrib]
      omega

/-- The offset layout produced by `offsets_assign`: starting from a
non-sentinel cursor whose fixed-prefix sums stay below 65535, a field
preceded only by fixed-length fields gets the cursor plus the prefix sum,
and a field preceded by a variable-length field gets the sentinel. -/
theorem offsets_assign_offsets (l : List fds_tfield) :
    ∀ c, c ≠ IPFIX_VAR_IE_LENGTH →
      (∀ i, i ≤ l.length →
        (∀ j, j < i → (l.getD j default).length ≠ IPFIX_VAR_IE_LENGTH) →
        c + ((l.take i).map (fun f => f.length)).sum < 65535) →
      ∀ i, i < l.length →
        (((∀ j, j < i → (l.getD j default).length ≠ IPFIX_VAR_IE_LENGTH) →
           ((offsets_assign l c).getD i default).offset =
             c + ((l.take i).map (fun f => f.length)).sum) ∧
         ((∃ j, j < i ∧ (l.getD j default).length = IPFIX_VAR_IE_LENGTH) →
           ((offsets_assign l c).getD i default).offset = IPFIX_VAR_IE_LENGTH)) := by
  induction l with
  | nil => intro c _ _ i hi; simp at hi
  | cons f rest ih =>
    intro c hc hpre i hi
    cases i with
    | zero =>
      constructor
      · intro _
        simp [offsets_assign]
      · rintro ⟨j, hj, -⟩
        omega
    | succ i' =>
      by_cases hvar : f.length = IPFIX_VAR_IE_LENGTH
      · -- the cursor turns into the sticky sentinel
        constructor
        · intro hfix
          exact absurd hvar (hfix 0 (by omega))
        · intro _
          simp only [offsets_assign, if_pos hvar, List.getD_cons_succ]
          have hlen : i' < (offsets_assign rest IPFIX_VAR_IE_LENGTH).length := by
            rw [offsets_assign_length]
            simpa using hi
          have hmem : (offsets_assign rest IPFIX_VAR_IE_LENGTH).getD i' default ∈
              offsets_assign rest IPFIX_VAR_IE_LENGTH := by
            rw [List.getD_eq_getElem?_getD, List.getElem?_eq_getElem hlen]
            exact List.getElem_mem _
          exact offsets_assign_sentinel _ _ hmem
      · -- fixed-length head: the cursor advances without wrapping
        have hstep : c + f.length < 65535 := by
          have := hpre 1 (by simp) (by
            intro j hj
            interval_cases j
            simpa using hvar)
          simpa using this
        have hcur : (if f.length = IPFIX_VAR_IE_LENGTH then IPFIX_VAR_IE_LENGTH
            else if c ≠ IPFIX_VAR_IE_LENGTH then (c + f.length) % 65536 else c) =
            c + f.length := by
          rw [if_neg hvar, if_pos hc, Nat.mod_eq_of_lt (by omega)]
        have hc2 : c + f.length ≠ IPFIX_VAR_IE_LENGTH := by
          unfold IPFIX_VAR_IE_LENGTH
          omega
        have hpre2 : ∀ i, i ≤ rest.length →
            (∀ j, j < i → (rest.getD j default).length ≠ IPFIX_VAR_IE_LENGTH) →
            c + f.length + ((rest.take i).map (fun f => f.length)).sum < 65535 := by
          intro i hile hfix
          have := hpre (i + 1) (by simpa using hile) (by
            intro j hj
            cases j with
            | zero => simpa using hvar
            | succ j' => simpa using hfix j' (by omega))
          simpa [Nat.add_assoc] using this
        have hrec := ih (c + f.length) hc2 hpre2 i' (by simpa using hi)
        constructor
        · intro hfix
          simp only [offsets_assign, hcur, List.getD_cons_succ, List.take_succ_cons,
            List.map_cons, List.sum_cons]
          rw [(hrec.1 (fun j hj => by simpa using hfix (j + 1) (by omega)))]
          omega
        · rintro ⟨j, hj, hjvar⟩
          simp only [offsets_assign, hcur, List.getD_cons_succ]
          cases j with
          | zero => exact absurd (by simpa using hjvar) hvar
          | succ j' =>
            exact hrec.2 ⟨j', by omega, by simpa using hjvar⟩

/-- Prefix sums of field lengths are monotone in the prefix length. -/
theorem sum_map_len_take_mono (l : List fds_tfield) :
    ∀ i k, i ≤ k →
      ((l.take i).map (fun f => f.length)).sum ≤
        ((l.take k).map (fun f => f.length)).sum := by
  induction l with
  | nil => intro i k _; simp
  | cons f rest ih =>
    intro i k hik
    cases i with
    | zero => simp
    | succ i' =>
      cases k with
      | zero => omega
      | succ k' =>
        simp only [List.take_succ_cons, List.map_cons, List.sum_cons]
        have := ih i' k' (by omega)
        omega

/--
**C2.** For every successfully parsed template the field offsets form a
valid layout: a field preceded only by fixed-length fields (i.e. before or
at the first variable-length field) has offset equal to the sum of the
lengths of all preceding fields — hence offsets are non-decreasing on that
prefix — and every field strictly after the first variable-length field has
the sentinel offset 65535.
-/
theorem claim_C2 (type : fds_template_type) (bytes : List Nat) (len : Nat)
    (t : fds_template) (n : Nat)
    (h : fds_template_parse type bytes len = .ok (t, n)) :
    (∀ i, i < t.fields.length →
      (((∀ j, j < i → (t.fields.getD j default).length ≠ IPFIX_VAR_IE_LENGTH) →
         (t.fields.getD i default).offset =
           ((t.fields.take i).map (fun f => f.length)).sum) ∧
       ((∃ j, j < i ∧ (t.fields.getD j default).length = IPFIX_VAR_IE_LENGTH) →
         (t.fields.getD i default).offset = IPFIX_VAR_IE_LENGTH))) ∧
    (∀ i k, i ≤ k → k < t.fields.length →
      (∀ j, j < k → (t.fields.getD j default).length ≠ IPFIX_VAR_IE_LENGTH) →
      (t.fields.getD i default).offset ≤ (t.fields.getD k default).offset) := by
  obtain ⟨t0, hdr, hh, hcase⟩ := fds_template_parse_ok_inv type bytes len t n h
  have hmain : ∀ i, i < t.fields.length →
      (((∀ j, j < i → (t.fields.getD j default).length ≠ IPFIX_VAR_IE_LENGTH) →
         (t.fields.getD i default).offset =
           ((t.fields.take i).map (fun f => f.length)).sum) ∧
       ((∃ j, j < i ∧ (t.fields.getD j default).length = IPFIX_VAR_IE_LENGTH) →
         (t.fields.getD i default).offset = IPFIX_VAR_IE_LENGTH)) := by
    rcases hcase with ⟨h0, -, ht⟩ | ⟨-, fields, lf, -, -, hc⟩
    · obtain ⟨-, -, -, -, -, -, -, -, -, -, -, -⟩ :=
        template_parse_header_ok_inv type bytes len t0 hdr hh
      have hnil : t0.fields = [] := List.length_eq_zero.mp h0
      subst ht
      intro i hi
      simp [hnil] at hi
    · set L := (template_fields_calc_flags
        { t0 with fields := fields,
                  raw := template_raw_copy bytes (hdr + lf) }).fields with hL
      obtain ⟨hle, o, ho⟩ := template_calc_features_ok_inv _ _ hc
      have htf : t.fields = offsets_assign L 0 := by
        rw [ho]
        exact calc_features_loop_fields L 0 0 _
      intro i hi
      rw [htf] at hi ⊢
      have hdlen : (L.map tfield_contrib).sum ≤ 65515 := by
        have := calc_features_loop_data_len L 0 0
          (template_fields_calc_flags
            { t0 with fields := fields,
                      raw := template_raw_copy bytes (hdr + lf) }).flags
        rw [this] at hle
        omega
      have hilen : i < L.length := by
        have := offsets_assign_length L 0
        omega
      have hlen_tr : ∀ j, ((offsets_assign L 0).getD j default).length =
          (L.getD j default).length := fun j => offsets_assign_lenAt L j 0
      have htake_tr : ∀ m, ((offsets_assign L 0).take m).map (fun f => f.length) =
          (L.take m).map (fun f => f.length) := by
        intro m
        rw [List.map_take, List.map_take, offsets_assign_map_length]
      have hpre : ∀ m, m ≤ L.length →
          (∀ j, j < m → (L.getD j default).length ≠ IPFIX_VAR_IE_LENGTH) →
          0 + ((L.take m).map (fun f => f.length)).sum < 65535 := by
        intro m hm hfix
        have := prefix_len_le_contrib L m hm hfix
        omega
      have hvar0 : (0 : Nat) ≠ IPFIX_VAR_IE_LENGTH := by
        unfold IPFIX_VAR_IE_LENGTH
        omega
      have hres := offsets_assign_offsets L 0 hvar0 hpre i hilen
      constructor
      · intro hfix
        rw [htake_tr i, hres.1 (fun j hj => by rw [← hlen_tr j]; exact hfix j hj)]
        omega
      · rintro ⟨j, hj, hjvar⟩
        exact hres.2 ⟨j, hj, by rw [← hlen_tr j]; exact hjvar⟩
  refine ⟨hmain, ?_⟩
  intro i k hik hk hfix
  have hi : i < t.fields.length := by omega
  have h1 := (hmain i hi).1 (fun j hj => hfix j (by omega))
  have h2 := (hmain k hk).1 hfix
  rw [h1, h2]
  exact sum_map_len_take_mono t.fields i k hik

/-- The raw bytes of spec scenario S2 (Options template, one enterprise
variable-length scope IE, one fixed IE). -/
def S2_bytes : List Nat :=
  [2, 0, 0, 2, 0, 1, 128, 10, 255, 255, 0, 0, 0, 32, 0, 8, 0, 4]

/-- The template value that `fds_template_parse` produces on `S2_bytes`. -/
def S2_tmplt : fds_template :=
  { type := .FDS_TYPE_TEMPLATE_OPTS
    id := 512
    fields_cnt_scope := 1
    data_length := 5
    flags := { has_dynamic := true }
    opts_types := {}
    fields := [{ id := 10, en := 32, length := 65535, offset := 0,
                 flags := { scope := true, last_ie := true } },
               { id := 8, en := 0, length := 4, offset := 65535,
                 flags := { last_ie := true } }]
    raw := S2_bytes }

theorem claim_C2_witness :
    fds_template_parse .FDS_TYPE_TEMPLATE_OPTS S2_bytes 18 = .ok (S2_tmplt, 18) ∧
    ((∀ i, i < S2_tmplt.fields.length →
      (((∀ j, j < i → (S2_tmplt.fields.getD j default).length ≠ IPFIX_VAR_IE_LENGTH) →
         (S2_tmplt.fields.getD i default).offset =
           ((S2_tmplt.fields.take i).map (fun f => f.length)).sum) ∧
       ((∃ j, j < i ∧ (S2_tmplt.fields.getD j default).length = IPFIX_VAR_IE_LENGTH) →
         (S2_tmplt.fields.getD i default).offset = IPFIX_VAR_IE_LENGTH))) ∧
     (∀ i k, i ≤ k → k < S2_tmplt.fields.length →
       (∀ j, j < k → (S2_tmplt.fields.getD j default).length ≠ IPFIX_VAR_IE_LENGTH) →
       (S2_tmplt.fields.getD i default).offset ≤
         (S2_tmplt.fields.getD k default).offset)) :=
  ⟨by decide, claim_C2 .FDS_TYPE_TEMPLATE_OPTS S2_bytes 18 S2_tmplt 18 (by decide)⟩

theorem claim_C4_witness :
    256 ≤ read_u16 [1, 0, 0, 0] 0 ∧
    ∃ t, fds_template_parse .FDS_TYPE_TEMPLATE_OPTS [1, 0, 0, 0] 6 = .ok (t, 4) ∧
      t.fields_cnt_total = 0 ∧ t.fields_cnt_scope = 0 ∧
      ∀ bytes2 len2, 4 ≤ len2 →
        (∀ i, i < 4 → byteAt bytes2 i = byteAt [1, 0, 0, 0] i) →
        fds_template_parse .FDS_TYPE_TEMPLATE_OPTS bytes2 len2 = .ok (t, 4) :=
  ⟨by decide,
   claim_C4 .FDS_TYPE_TEMPLATE_OPTS [1, 0, 0, 0] 6 (by omega) (by decide) (by decide)⟩

theorem claim_C6_witness :
    0 < read_u16 [3, 0, 0, 2, 0, 3] 2 ∧
    fds_template_parse .FDS_TYPE_TEMPLATE_OPTS [3, 0, 0, 2, 0, 3] 6 = .error .FORMAT :=
  ⟨by decide,
   claim_C6 [3, 0, 0, 2, 0, 3] 6 (by omega) (by decide) (by decide) (by decide)⟩

/-! ## MULTI_IE / LAST_IE exactness (claim C1) -/

/-- The `(en, id)` occurrence key of the field at index `j`. -/
def pairAt (l : List fds_tfield) (j : Nat) : Nat × Nat :=
  ((l.getD j default).en, (l.getD j default).id)

/-- Index `i` holds the last (rightmost) occurrence of its `(en, id)` pair. -/
def IsLastOcc (l : List fds_tfield) (i : Nat) : Prop :=
  ∀ j, j < l.length → i < j → pairAt l j ≠ pairAt l i

/-- The pair at index `j` has another occurrence `k`, and the leftmost of
the two indices is at least `i` — exactly the duplicates that the
right-to-left loop has discovered once indices `≥ i` are processed. -/
def DupSince (l : List fds_tfield) (i j : Nat) : Prop :=
  ∃ k, k < l.length ∧ k ≠ j ∧ pairAt l k = pairAt l j ∧ i ≤ min j k

instance (l : List fds_tfield) (i : Nat) : Decidable (IsLastOcc l i) :=
  inferInstanceAs (Decidable (∀ j, j < l.length → _))

instance (l : List fds_tfield) (i j : Nat) : Decidable (DupSince l i j) :=
  decidable_of_iff
    (∃ k ∈ List.range l.length, k ≠ j ∧ pairAt l k = pairAt l j ∧ i ≤ min j k)
    (by simp only [List.mem_range, DupSince])

/-- Overwrite the LAST_IE and MULTI_IE flags of a field. -/
def setML (f : fds_tfield) (b1 b2 : Bool) : fds_tfield :=
  { f with flags := { f.flags with last_ie := b1, multi_ie := b2 } }

@[simp] theorem setML_id (f : fds_tfield) (b1 b2 : Bool) : (setML f b1 b2).id = f.id := rfl

@[simp] theorem setML_en (f : fds_tfield) (b1 b2 : Bool) : (setML f b1 b2).en = f.en := rfl

theorem setML_eq_self (f : fds_tfield) (h1 : f.flags.last_ie = false)
    (h2 : f.flags.multi_ie = false) : setML f false false = f := by
  obtain ⟨id, en, length, offset, flags, def_⟩ := f
  obtain ⟨s, m, la, fk, st, r, b1, b2, b3⟩ := flags
  simp only [setML]
  simp at h1 h2
  rw [h1, h2]

theorem not_DupSince_succ_self (l : List fds_tfield) (i : Nat) :
    ¬ DupSince l (i + 1) i := by
  rintro ⟨k, -, -, -, hmin⟩
  omega

theorem not_DupSince_length (l : List fds_tfield) (j : Nat) (hj : j < l.length) :
    ¬ DupSince l l.length j := by
  rintro ⟨k, -, -, -, hmin⟩
  omega

theorem DupSince_self_iff (l : List fds_tfield) (i : Nat) :
    DupSince l i i ↔ ∃ k, k < l.length ∧ i < k ∧ pairAt l k = pairAt l i := by
  constructor
  · rintro ⟨k, hk, hne, hp, hmin⟩
    exact ⟨k, hk, by omega, hp⟩
  · rintro ⟨k, hk, hik, hp⟩
    exact ⟨k, hk, by omega, hp, by omega⟩

/-- Weakening the loop bound from `i+1` to `i` changes nothing for `j ≠ i`
when index `i` has no matching occurrence to its right. -/
theorem DupSince_lower (l : List fds_tfield) (i j : Nat) (hne : j ≠ i)
    (hjlen : j < l.length)
    (hnomatch : ∀ k, k < l.length → i < k → pairAt l k ≠ pairAt l i) :
    DupSince l i j ↔ DupSince l (i + 1) j := by
  constructor
  · rintro ⟨k, hk, hkj, hkp, hmin⟩
    by_cases hge : i + 1 ≤ min j k
    · exact ⟨k, hk, hkj, hkp, hge⟩
    · -- min j k = i, so k = i (j ≠ i), and j is a right match of i: impossible
      have hki : k = i := by omega
      rw [hki] at hkp
      have hij : i < j := by omega
      exact absurd hkp.symm (hnomatch j hjlen hij)
  · rintro ⟨k, hk, hkj, hkp, hmin⟩
    exact ⟨k, hk, hkj, hkp, by omega⟩

/-- Weakening the loop bound from `i+1` to `i` changes nothing for
`j ∉ {i, x}` when `x` is the leftmost right-match of `i`. -/
theorem DupSince_lower_found (l : List fds_tfield) (i j x : Nat) (hji : j ≠ i)
    (hjx : j ≠ x) (hix : i < x) (hxlen : x < l.length)
    (hpx : pairAt l x = pairAt l i)
    (hmin : ∀ z, i < z → z < x → pairAt l z ≠ pairAt l i) :
    DupSince l i j ↔ DupSince l (i + 1) j := by
  constructor
  · rintro ⟨k, hk, hkj, hkp, hkmin⟩
    by_cases hge : i + 1 ≤ min j k
    · exact ⟨k, hk, hkj, hkp, hge⟩
    · have hki : k = i := by omega
      rw [hki] at hkp
      have hij : i < j := by omega
      -- j matches i; by minimality of x, j cannot lie strictly between i and x
      have hjx2 : ¬ j < x := by
        intro hlt
        exact hmin j hij hlt hkp.symm
      have hxj : x < j := by omega
      exact ⟨x, hxlen, by omega, by rw [hpx]; exact hkp, by omega⟩
  · rintro ⟨k, hk, hkj, hkp, hkmin⟩
    exact ⟨k, hk, hkj, hkp, by omega⟩

theorem set_tflags_getElem? (l : List fds_tfield) (i : Nat) (g : TFieldFlags → TFieldFlags)
    (j : Nat) :
    (set_tflags l i g)[j]? =
      if j = i then (l[j]?).map (fun f => { f with flags := g f.flags }) else l[j]? := by
  unfold set_tflags
  cases hl : l[i]? with
  | none =>
    by_cases hji : j = i
    · subst hji
      rw [if_pos rfl, hl]
      rfl
    · rw [if_neg hji]
  | some f =>
    have hlt : i < l.length := by
      by_contra hge
      rw [List.getElem?_eq_none (by omega)] at hl
      cases hl
    by_cases hji : j = i
    · subst hji
      rw [if_pos rfl, List.getElem?_set_self hlt, hl]
      rfl
    · rw [if_neg hji, List.getElem?_set_ne (fun h => hji h.symm)]

theorem cur_length_eq (cur orig : List fds_tfield) (g : Nat → fds_tfield → fds_tfield)
    (h : ∀ j, cur[j]? = (orig[j]?).map (g j)) : cur.length = orig.length := by
  rcases Nat.lt_trichotomy cur.length orig.length with hlt | heq | hgt
  · have h2 := h cur.length
    rw [List.getElem?_eq_none (le_refl _), List.getElem?_eq_getElem hlt] at h2
    simp at h2
  · exact heq
  · have h2 := h orig.length
    rw [List.getElem?_eq_getElem hgt, List.getElem?_eq_none (le_refl _)] at h2
    simp at h2

theorem and_two_pow_eq_zero_iff (n b : Nat) :
    n &&& 2 ^ b = 0 ↔ n.testBit b = false := by
  constructor
  · intro h
    have h2 := congrArg (fun m => m.testBit b) h
    simpa [Nat.testBit_and, Nat.testBit_two_pow] using h2
  · intro h
    apply Nat.eq_of_testBit_eq
    intro i
    rw [Nat.testBit_and, Nat.testBit_two_pow, Nat.zero_testBit]
    by_cases hbi : b = i
    · subst hbi
      simp [h]
    · simp [hbi]

theorem and_two_pow_ne_zero_iff (n b : Nat) :
    n &&& 2 ^ b ≠ 0 ↔ n.testBit b = true := by
  rw [Ne, and_two_pow_eq_zero_iff]
  cases hb : n.testBit b <;> simp

theorem or_two_pow_and_ne_zero_iff (hash b c : Nat) :
    (hash ||| 2 ^ b) &&& 2 ^ c ≠ 0 ↔ (hash &&& 2 ^ c ≠ 0 ∨ b = c) := by
  rw [and_two_pow_ne_zero_iff, and_two_pow_ne_zero_iff, Nat.testBit_or,
    Nat.testBit_two_pow]
  simp

theorem same_ie_find_go_some_props (l : List fds_tfield) (fid fen : Nat) :
    ∀ n x y, same_ie_find_go l fid fen x n = some y →
      x ≤ y ∧ y < x + n ∧ (l.getD y default).id = fid ∧ (l.getD y default).en = fen ∧
      ∀ z, x ≤ z → z < y →
        ¬((l.getD z default).id = fid ∧ (l.getD z default).en = fen) := by
  intro n
  induction n with
  | zero =>
    intro x y h
    cases h
  | succ n ih =>
    intro x y h
    simp only [same_ie_find_go] at h
    by_cases hm : (l.getD x default).id = fid ∧ (l.getD x default).en = fen
    · rw [if_pos hm] at h
      injection h with hxy
      subst hxy
      exact ⟨le_refl _, by omega, hm.1, hm.2, fun z hz1 hz2 => by omega⟩
    · rw [if_neg hm] at h
      obtain ⟨h1, h2, h3, h4, h5⟩ := ih (x + 1) y h
      refine ⟨by omega, by omega, h3, h4, ?_⟩
      intro z hz1 hz2
      by_cases hzx : z = x
      · subst hzx
        exact hm
      · exact h5 z (by omega) hz2

theorem same_ie_find_go_none_props (l : List fds_tfield) (fid fen : Nat) :
    ∀ n x, same_ie_find_go l fid fen x n = none →
      ∀ z, x ≤ z → z < x + n →
        ¬((l.getD z default).id = fid ∧ (l.getD z default).en = fen) := by
  intro n
  induction n with
  | zero =>
    intro x h z hz1 hz2
    omega
  | succ n ih =>
    intro x h z hz1 hz2
    simp only [same_ie_find_go] at h
    by_cases hm : (l.getD x default).id = fid ∧ (l.getD x default).en = fen
    · rw [if_pos hm] at h
      cases h
    · rw [if_neg hm] at h
      by_cases hzx : z = x
      · subst hzx
        exact hm
      · exact ih (x + 1) h z (by omega) (by omega)

theorem same_ie_find_some_props (l : List fds_tfield) (fid fen x y : Nat)
    (h : same_ie_find l fid fen x = some y) :
    x ≤ y ∧ y < l.length ∧ (l.getD y default).id = fid ∧ (l.getD y default).en = fen ∧
    ∀ z, x ≤ z → z < y →
      ¬((l.getD z default).id = fid ∧ (l.getD z default).en = fen) := by
  unfold same_ie_find at h
  obtain ⟨h1, h2, h3, h4, h5⟩ := same_ie_find_go_some_props l fid fen (l.length - x) x y h
  exact ⟨h1, by omega, h3, h4, h5⟩

theorem same_ie_find_none_props (l : List fds_tfield) (fid fen x : Nat)
    (h : same_ie_find l fid fen x = none) :
    ∀ z, x ≤ z → z < l.length →
      ¬((l.getD z default).id = fid ∧ (l.getD z default).en = fen) := by
  unfold same_ie_find at h
  intro z hz1 hz2
  exact same_ie_find_go_none_props l fid fen (l.length - x) x h z hz1 (by omega)

/-- The right-to-left loop invariant of `calc_flags_loop`: if indices `≥ i`
have been processed (their LAST_IE flag settled, MULTI_IE settled for the
duplicates already seen) and if the hash bit of every processed field is
set, the loop finishes the derivation exactly: LAST_IE iff last occurrence,
MULTI_IE iff the pair occurs elsewhere. -/
theorem calc_flags_loop_spec (orig : List fds_tfield) :
    ∀ (i : Nat) (hash : Nat) (cur : List fds_tfield),
      i ≤ orig.length →
      (∀ j, cur[j]? = (orig[j]?).map (fun f =>
        setML f (decide (i ≤ j ∧ IsLastOcc orig j)) (decide (DupSince orig i j)))) →
      (∀ j, i ≤ j → j < orig.length →
        hash &&& 2 ^ ((orig.getD j default).id % 64) ≠ 0) →
      ∀ j, (calc_flags_loop cur hash i)[j]? = (orig[j]?).map (fun f =>
        setML f (decide (IsLastOcc orig j)) (decide (DupSince orig 0 j))) := by
  intro i
  induction i with
  | zero =>
    intro hash cur _ hcur _ j
    rw [calc_flags_loop, hcur j]
    simp only [Nat.zero_le, true_and]
  | succ i ih =>
    intro hash cur hile hcur hhash
    have hi : i < orig.length := by omega
    have hlen : cur.length = orig.length := cur_length_eq cur orig _ hcur
    have horigD : ∀ z, z < orig.length → orig[z]? = some (orig.getD z default) := by
      intro z hz
      rw [List.getElem?_eq_getElem hz, List.getD_eq_getElem?_getD,
        List.getElem?_eq_getElem hz]
      rfl
    have hnotle : decide (i + 1 ≤ i ∧ IsLastOcc orig i) = false := by
      simp only [decide_eq_false_iff_not, not_and]
      omega
    have hnotdup : decide (DupSince orig (i + 1) i) = false := by
      simp [not_DupSince_succ_self]
    have hcur_getD : ∀ z, z < orig.length → cur.getD z default =
        setML (orig.getD z default)
          (decide (i + 1 ≤ z ∧ IsLastOcc orig z)) (decide (DupSince orig (i + 1) z)) := by
      intro z hz
      rw [List.getD_eq_getElem?_getD, hcur z, horigD z hz]
      rfl
    have hcuri : cur.getD i default = setML (orig.getD i default) false false := by
      rw [hcur_getD i hi, hnotle, hnotdup]
    -- the shared update when index `i` turns out to be a last occurrence
    have hcur_last : IsLastOcc orig i →
        ∀ j, (set_tflags cur i (fun fl => { fl with last_ie := true }))[j]? =
          (orig[j]?).map (fun f =>
            setML f (decide (i ≤ j ∧ IsLastOcc orig j)) (decide (DupSince orig i j))) := by
      intro hlast j
      have hnodup : ¬ DupSince orig i i := by
        rw [DupSince_self_iff]
        rintro ⟨k, hk, hik, hpk⟩
        exact hlast k hk hik hpk
      rw [set_tflags_getElem?]
      by_cases hji : j = i
      · subst hji
        rw [if_pos rfl, hcur j, horigD j hi]
        simp only [Option.map_some']
        rw [hnotle, hnotdup]
        have hd1 : decide (j ≤ j ∧ IsLastOcc orig j) = true := by
          simp [hlast]
        have hd2 : decide (DupSince orig j j) = false := by
          simp [hnodup]
        rw [hd1, hd2]
        rfl
      · rw [if_neg hji, hcur j]
        cases horig : orig[j]? with
        | none => rfl
        | some f =>
          have hjlen : j < orig.length := by
            by_contra hge
            rw [List.getElem?_eq_none (by omega)] at horig
            cases horig
          simp only [Option.map_some']
          have e1 : decide (i + 1 ≤ j ∧ IsLastOcc orig j) =
              decide (i ≤ j ∧ IsLastOcc orig j) := by
            rw [decide_eq_decide]
            constructor
            · rintro ⟨h1, h2⟩
              exact ⟨by omega, h2⟩
            · rintro ⟨h1, h2⟩
              exact ⟨by omega, h2⟩
          have e2 : decide (DupSince orig (i + 1) j) = decide (DupSince orig i j) := by
            rw [decide_eq_decide]
            exact (DupSince_lower orig i j hji hjlen hlast).symm
          rw [e1, e2]
    by_cases hbit : hash &&& 2 ^ ((orig.getD i default).id % 64) = 0
    · -- fast path: the hash bit is clear, so index `i` is a last occurrence
      have hstep : calc_flags_loop cur hash (i + 1) =
          calc_flags_loop (set_tflags cur i (fun fl => { fl with last_ie := true }))
            (hash ||| 2 ^ ((orig.getD i default).id % 64)) i := by
        simp only [calc_flags_loop]
        rw [hcuri]
        simp only [setML_id, setML_en]
        rw [if_pos hbit]
      have hlast : IsLastOcc orig i := by
        intro z hzlen hiz hpair
        have hz := hhash z (by omega) hzlen
        have hzid : (orig.getD z default).id = (orig.getD i default).id :=
          congrArg Prod.snd hpair
        rw [hzid] at hz
        exact hz hbit
      rw [hstep]
      refine ih (hash ||| 2 ^ ((orig.getD i default).id % 64)) _ (by omega)
        (hcur_last hlast) ?_
      intro j hij hjlen
      rw [or_two_pow_and_ne_zero_iff]
      by_cases hji : j = i
      · subst hji
        right
        rfl
      · left
        exact hhash j (by omega) hjlen
    · -- the hash bit is set: the linear scan decides exactly
      have hstep0 : calc_flags_loop cur hash (i + 1) =
          match same_ie_find cur (orig.getD i default).id (orig.getD i default).en
              (i + 1) with
          | some x =>
            calc_flags_loop
              (set_tflags (set_tflags cur i (fun fl => { fl with multi_ie := true })) x
                (fun fl => { fl with multi_ie := true })) hash i
          | none =>
            calc_flags_loop (set_tflags cur i (fun fl => { fl with last_ie := true }))
              hash i := by
        simp only [calc_flags_loop]
        rw [hcuri]
        simp only [setML_id, setML_en]
        rw [if_neg hbit]
      cases hscan : same_ie_find cur (orig.getD i default).id (orig.getD i default).en
          (i + 1) with
      | none =>
        rw [hstep0, hscan]
        have hnone := same_ie_find_none_props cur (orig.getD i default).id
          (orig.getD i default).en (i + 1) hscan
        have hlast : IsLastOcc orig i := by
          intro z hzlen hiz hpair
          refine hnone z (by omega) (by omega) ⟨?_, ?_⟩
          · rw [hcur_getD z hzlen, setML_id]
            exact congrArg Prod.snd hpair
          · rw [hcur_getD z hzlen, setML_en]
            exact congrArg Prod.fst hpair
        refine ih hash _ (by omega) (hcur_last hlast) ?_
        intro j hij hjlen
        by_cases hji : j = i
        · subst hji
          exact hbit
        · exact hhash j (by omega) hjlen
      | some x =>
        rw [hstep0, hscan]
        obtain ⟨hx1, hx2, hx3, hx4, hx5⟩ := same_ie_find_some_props cur
          (orig.getD i default).id (orig.getD i default).en (i + 1) x hscan
        have hx2' : x < orig.length := by omega
        have hxid : (orig.getD x default).id = (orig.getD i default).id := by
          rw [← hx3, hcur_getD x hx2', setML_id]
        have hxen : (orig.getD x default).en = (orig.getD i default).en := by
          rw [← hx4, hcur_getD x hx2', setML_en]
        have hpx : pairAt orig x = pairAt orig i := by
          unfold pairAt
          rw [hxid, hxen]
        have hminx : ∀ z, i < z → z < x → pairAt orig z ≠ pairAt orig i := by
          intro z hz1 hz2 hpair
          have hz' : z < orig.length := by omega
          refine hx5 z (by omega) hz2 ⟨?_, ?_⟩
          · rw [hcur_getD z hz', setML_id]
            exact congrArg Prod.snd hpair
          · rw [hcur_getD z hz', setML_en]
            exact congrArg Prod.fst hpair
        have hix : i < x := by omega
        have hnotlast : ¬ IsLastOcc orig i := fun hl => hl x hx2' hix hpx
        have hdup_i : DupSince orig i i := (DupSince_self_iff _ _).mpr ⟨x, hx2', hix, hpx⟩
        refine ih hash _ (by omega) ?_ ?_
        · -- the two MULTI_IE updates re-establish the invariant at `i`
          intro j
          rw [set_tflags_getElem?, set_tflags_getElem?]
          by_cases hjx : j = x
          · subst hjx
            have hji : j ≠ i := by omega
            rw [if_pos rfl, if_neg hji, hcur j, horigD j hx2']
            simp only [Option.map_some']
            have e1 : decide (i + 1 ≤ j ∧ IsLastOcc orig j) =
                decide (i ≤ j ∧ IsLastOcc orig j) := by
              rw [decide_eq_decide]
              constructor
              · rintro ⟨h1, h2⟩
                exact ⟨by omega, h2⟩
              · rintro ⟨h1, h2⟩
                exact ⟨by omega, h2⟩
            have e2 : decide (DupSince orig i j) = true := by
              simp only [decide_eq_true_eq]
              exact ⟨i, hi, by omega, hpx.symm, by omega⟩
            rw [e1, e2]
            rfl
          · by_cases hji : j = i
            · subst hji
              rw [if_neg hjx, if_pos rfl, hcur j, horigD j hi]
              simp only [Option.map_some']
              rw [hnotle, hnotdup]
              have hd1 : decide (j ≤ j ∧ IsLastOcc orig j) = false := by
                simp [hnotlast]
              have hd2 : decide (DupSince orig j j) = true := by
                simp [hdup_i]
              rw [hd1, hd2]
              rfl
            · rw [if_neg hjx, if_neg hji, hcur j]
              cases horig : orig[j]? with
              | none => rfl
              | some f =>
                simp only [Option.map_some']
                have e1 : decide (i + 1 ≤ j ∧ IsLastOcc orig j) =
                    decide (i ≤ j ∧ IsLastOcc orig j) := by
                  rw [decide_eq_decide]
                  constructor
                  · rintro ⟨h1, h2⟩
                    exact ⟨by omega, h2⟩
                  · rintro ⟨h1, h2⟩
                    exact ⟨by omega, h2⟩
                have e2 : decide (DupSince orig (i + 1) j) =
                    decide (DupSince orig i j) := by
                  rw [decide_eq_decide]
                  exact (DupSince_lower_found orig i j x hji hjx hix hx2' hpx hminx).symm
                rw [e1, e2]
        · intro j hij hjlen
          by_cases hji : j = i
          · subst hji
            exact hbit
          · exact hhash j (by omega) hjlen

/-- Fields coming out of the Field Specifier parser carry no flags, no
offset and no definition (the template structure was `calloc`-zeroed). -/
theorem template_parse_fields_go_flags (bytes : List Nat) :
    ∀ n pos len_remain fs rem,
      template_parse_fields_go bytes pos len_remain n = .ok (fs, rem) →
      ∀ f ∈ fs, f.flags = {} ∧ f.offset = 0 ∧ f.def_ = none := by
  intro n
  induction n with
  | zero =>
    intro pos lr fs rem h f hf
    simp only [template_parse_fields_go, Except.ok.injEq, Prod.mk.injEq] at h
    obtain ⟨h1, -⟩ := h
    subst h1
    simp at hf
  | succ n ih =>
    intro pos lr fs rem h f hf
    simp only [template_parse_fields_go] at h
    by_cases h4 : lr < 4
    · rw [if_pos h4] at h
      simp at h
    · rw [if_neg h4] at h
      by_cases hen : read_u16 bytes pos &&& 0x8000 = 0
      · rw [if_pos hen] at h
        cases hrec : template_parse_fields_go bytes (pos + 4) (lr - 4) n with
        | error e =>
          rw [hrec] at h
          simp at h
        | ok pr =>
          obtain ⟨rest, rem2⟩ := pr
          rw [hrec] at h
          simp only [Except.ok.injEq, Prod.mk.injEq] at h
          obtain ⟨hfs, -⟩ := h
          subst hfs
          rcases List.mem_cons.mp hf with hf | hf
          · subst hf
            exact ⟨rfl, rfl, rfl⟩
          · exact ih (pos + 4) (lr - 4) rest rem2 hrec f hf
      · rw [if_neg hen] at h
        by_cases h8 : lr - 4 < 4
        · rw [if_pos h8] at h
          simp at h
        · rw [if_neg h8] at h
          cases hrec : template_parse_fields_go bytes (pos + 8) (lr - 8) n with
          | error e =>
            rw [hrec] at h
            simp at h
          | ok pr =>
            obtain ⟨rest, rem2⟩ := pr
            rw [hrec] at h
            simp only [Except.ok.injEq, Prod.mk.injEq] at h
            obtain ⟨hfs, -⟩ := h
            subst hfs
            rcases List.mem_cons.mp hf with hf | hf
            · subst hf
              exact ⟨rfl, rfl, rfl⟩
            · exact ih (pos + 8) (lr - 8) rest rem2 hrec f hf

theorem template_mark_scope_getElem? (l : List fds_tfield) :
    ∀ k j, (template_mark_scope l k)[j]? =
      (l[j]?).map (fun f =>
        if j < k then { f with flags := { f.flags with scope := true } } else f) := by
  induction l with
  | nil =>
    intro k j
    cases k <;> simp [template_mark_scope]
  | cons f rest ih =>
    intro k j
    cases k with
    | zero => simp [template_mark_scope]
    | succ k' =>
      cases j with
      | zero => simp [template_mark_scope]
      | succ j' =>
        simp only [template_mark_scope, List.getElem?_cons_succ, ih k' j']
        by_cases hjk : j' < k' <;> simp [hjk, Nat.succ_lt_succ_iff]

theorem offsets_assign_flagsAt (l : List fds_tfield) :
    ∀ (j c : Nat),
      ((offsets_assign l c).getD j default).flags = (l.getD j default).flags := by
  induction l with
  | nil => intro j c; rfl
  | cons f rest ih =>
    intro j c
    cases j with
    | zero => rfl
    | succ j' => simp only [offsets_assign, List.getD_cons_succ]; exact ih j' _

theorem offsets_assign_pairAt (l : List fds_tfield) :
    ∀ (j c : Nat), pairAt (offsets_assign l c) j = pairAt l j := by
  induction l with
  | nil => intro j c; rfl
  | cons f rest ih =>
    intro j c
    cases j with
    | zero => rfl
    | succ j' =>
      unfold pairAt
      simp only [offsets_assign, List.getD_cons_succ]
      exact congrArg (fun p => p) (ih j' _)

theorem IsLastOcc_congr (l1 l2 : List fds_tfield) (hlen : l1.length = l2.length)
    (hp : ∀ j, pairAt l1 j = pairAt l2 j) (i : Nat) :
    IsLastOcc l1 i ↔ IsLastOcc l2 i := by
  unfold IsLastOcc
  constructor
  · intro h j hj hij
    rw [← hp j, ← hp i]
    exact h j (by omega) hij
  · intro h j hj hij
    rw [hp j, hp i]
    exact h j (by omega) hij

theorem DupSince_congr (l1 l2 : List fds_tfield) (hlen : l1.length = l2.length)
    (hp : ∀ j, pairAt l1 j = pairAt l2 j) (i j : Nat) :
    DupSince l1 i j ↔ DupSince l2 i j := by
  unfold DupSince
  constructor
  · rintro ⟨k, hk, hkj, hkp, hmin⟩
    exact ⟨k, by omega, hkj, by rw [← hp k, ← hp j]; exact hkp, hmin⟩
  · rintro ⟨k, hk, hkj, hkp, hmin⟩
    exact ⟨k, by omega, hkj, by rw [hp k, hp j]; exact hkp, hmin⟩

/-- If LAST_IE marks exactly the last occurrences, then each present pair
has exactly one LAST_IE field, namely its occurrence of largest index. -/
theorem last_ie_unique (l : List fds_tfield)
    (hiff : ∀ i, i < l.length → ((l.getD i default).flags.last_ie = true ↔ IsLastOcc l i))
    (p : Nat × Nat) (hex : ∃ i, i < l.length ∧ pairAt l i = p) :
    ∃! i, i < l.length ∧ pairAt l i = p ∧ (l.getD i default).flags.last_ie = true := by
  obtain ⟨i0, hi0, hp0⟩ := hex
  letI : DecidablePred (fun i => i < l.length ∧ pairAt l i = p) :=
    fun i => inferInstanceAs (Decidable (i < l.length ∧ pairAt l i = p))
  set m := Nat.findGreatest (fun i => i < l.length ∧ pairAt l i = p) l.length with hm
  have hPm : m < l.length ∧ pairAt l m = p :=
    Nat.findGreatest_spec (P := fun i => i < l.length ∧ pairAt l i = p)
      (le_of_lt hi0) ⟨hi0, hp0⟩
  have hlast : IsLastOcc l m := by
    intro z hzlen hmz hpz
    have hPz : z < l.length ∧ pairAt l z = p := ⟨hzlen, by rw [hpz, hPm.2]⟩
    have := Nat.le_findGreatest (P := fun i => i < l.length ∧ pairAt l i = p)
      (le_of_lt hzlen) hPz
    omega
  refine ⟨m, ⟨hPm.1, hPm.2, (hiff m hPm.1).mpr hlast⟩, ?_⟩
  rintro y ⟨hy, hpy, hly⟩
  have hylast : IsLastOcc l y := (hiff y hy).mp hly
  by_contra hne
  rcases Nat.lt_or_ge y m with hlt | hge
  · exact hylast m hPm.1 hlt (by rw [hPm.2, hpy])
  · exact hlast y hy (by omega) (by rw [hpy, hPm.2])

theorem tfield_getElem?_eq (l : List fds_tfield) (z : Nat) (hz : z < l.length) :
    l[z]? = some (l.getD z default) := by
  rw [List.getElem?_eq_getElem hz, List.getD_eq_getElem?_getD,
    List.getElem?_eq_getElem hz]
  rfl

theorem DupSince_zero_iff (l : List fds_tfield) (j : Nat) :
    DupSince l 0 j ↔ ∃ k, k < l.length ∧ k ≠ j ∧ pairAt l k = pairAt l j := by
  unfold DupSince
  constructor
  · rintro ⟨k, a, b, c, -⟩
    exact ⟨k, a, b, c⟩
  · rintro ⟨k, a, b, c⟩
    exact ⟨k, a, b, c, Nat.zero_le _⟩

theorem template_parse_fields_ok_inv (bytes : List Nat) (pos len cnt : Nat)
    (fs : List fds_tfield) (consumed : Nat)
    (h : template_parse_fields bytes pos len cnt = .ok (fs, consumed)) :
    ∃ rem, template_parse_fields_go bytes pos len cnt = .ok (fs, rem) ∧
      consumed = len - rem := by
  unfold template_parse_fields at h
  cases hg : template_parse_fields_go bytes pos len cnt with
  | error e =>
    rw [hg] at h
    simp at h
  | ok pr =>
    obtain ⟨fs2, rem⟩ := pr
    rw [hg] at h
    simp only [Except.ok.injEq, Prod.mk.injEq] at h
    obtain ⟨h1, h2⟩ := h
    subst h1
    exact ⟨rem, rfl, h2.symm⟩

/--
**C1.** For every successfully parsed template the duplicate flags are
exact: a field carries LAST_IE iff it is the occurrence of its `(en, id)`
pair with the largest index, a field carries MULTI_IE iff its pair occurs at
least twice (at some other index) in the field list, and consequently every
pair present in the template has exactly one LAST_IE field — its occurrence
of largest index.  (The 64-bit `id % 64` bitmap of the C loop is only a
lossy prefilter; the theorem shows the final flags are exact nonetheless.)
-/
theorem claim_C1 (type : fds_template_type) (bytes : List Nat) (len : Nat)
    (t : fds_template) (n : Nat)
    (h : fds_template_parse type bytes len = .ok (t, n)) :
    (∀ i, i < t.fields.length →
      (((t.fields.getD i default).flags.last_ie = true ↔ IsLastOcc t.fields i) ∧
       ((t.fields.getD i default).flags.multi_ie = true ↔
          ∃ k, k < t.fields.length ∧ k ≠ i ∧ pairAt t.fields k = pairAt t.fields i))) ∧
    (∀ p : Nat × Nat, (∃ i, i < t.fields.length ∧ pairAt t.fields i = p) →
      ∃! i, i < t.fields.length ∧ pairAt t.fields i = p ∧
        (t.fields.getD i default).flags.last_ie = true) := by
  obtain ⟨t0, hdr, hh, hcase⟩ := fds_template_parse_ok_inv type bytes len t n h
  have hmain : ∀ i, i < t.fields.length →
      (((t.fields.getD i default).flags.last_ie = true ↔ IsLastOcc t.fields i) ∧
       ((t.fields.getD i default).flags.multi_ie = true ↔
          ∃ k, k < t.fields.length ∧ k ≠ i ∧ pairAt t.fields k = pairAt t.fields i)) := by
    rcases hcase with ⟨h0, -, ht⟩ | ⟨-, fields, lf, hf, -, hc⟩
    · have hnil : t0.fields = [] := List.length_eq_zero.mp h0
      subst ht
      intro i hi
      simp [hnil] at hi
    · obtain ⟨rem, hgo, -⟩ := template_parse_fields_ok_inv _ _ _ _ _ _ hf
      set M := template_mark_scope fields t0.fields_cnt_scope with hM
      set L := calc_flags_loop M 0 M.length with hLdef
      obtain ⟨hle, o, ho⟩ := template_calc_features_ok_inv _ _ hc
      have htf : t.fields = offsets_assign L 0 := by
        rw [ho]
        exact calc_features_loop_fields L 0 0 _
      have hfieldflags : ∀ f ∈ fields, f.flags = ({} : TFieldFlags) := by
        intro f hf2
        exact (template_parse_fields_go_flags bytes t0.fields_cnt_total hdr (len - hdr)
          fields rem hgo f hf2).1
      have hMget := template_mark_scope_getElem? fields t0.fields_cnt_scope
      have hMlen : M.length = fields.length := cur_length_eq M fields _ hMget
      have hMflags : ∀ j, (M.getD j default).flags.last_ie = false ∧
          (M.getD j default).flags.multi_ie = false := by
        intro j
        by_cases hj : j < M.length
        · have hjf : j < fields.length := by omega
          have hfj : fields[j]? = some (fields.getD j default) := tfield_getElem?_eq _ _ hjf
          have hMj : M.getD j default =
              (if j < t0.fields_cnt_scope then
                { fields.getD j default with
                  flags := { (fields.getD j default).flags with scope := true } }
               else fields.getD j default) := by
            rw [List.getD_eq_getElem?_getD, hMget j, hfj]
            rfl
          have hmem : fields.getD j default ∈ fields := by
            rw [List.getD_eq_getElem?_getD, List.getElem?_eq_getElem hjf]
            exact List.getElem_mem _
          have hzero := hfieldflags _ hmem
          rw [hMj]
          split <;> rw [hzero] <;> exact ⟨rfl, rfl⟩
        · rw [List.getD_eq_getElem?_getD, List.getElem?_eq_none (by omega)]
          exact ⟨rfl, rfl⟩
      have hinit : ∀ j, M[j]? = (M[j]?).map (fun f =>
          setML f (decide (M.length ≤ j ∧ IsLastOcc M j))
            (decide (DupSince M M.length j))) := by
        intro j
        cases hMj : M[j]? with
        | none => rfl
        | some f =>
          have hj : j < M.length := by
            by_contra hge
            rw [List.getElem?_eq_none (by omega)] at hMj
            cases hMj
          have hfeq : f = M.getD j default := by
            rw [List.getD_eq_getElem?_getD, hMj]
            rfl
          simp only [Option.map_some']
          have hd1 : decide (M.length ≤ j ∧ IsLastOcc M j) = false := by
            simp only [decide_eq_false_iff_not, not_and]
            omega
          have hd2 : decide (DupSince M M.length j) = false := by
            simp [not_DupSince_length M j hj]
          rw [hd1, hd2, setML_eq_self]
          · rw [hfeq]
            exact (hMflags j).1
          · rw [hfeq]
            exact (hMflags j).2
      have hL := calc_flags_loop_spec M M.length 0 M (le_refl _) hinit
        (fun j h1 h2 => absurd h2 (by omega))
      have hLlen : L.length = M.length := cur_length_eq L M _ hL
      have hLget : ∀ j, j < M.length → L.getD j default =
          setML (M.getD j default) (decide (IsLastOcc M j))
            (decide (DupSince M 0 j)) := by
        intro j hj
        rw [List.getD_eq_getElem?_getD, hL j, tfield_getElem?_eq M j hj]
        rfl
      have hpairLM : ∀ j, pairAt L j = pairAt M j := by
        intro j
        by_cases hj : j < M.length
        · unfold pairAt
          rw [hLget j hj]
          rfl
        · have e1 : L.getD j default = default := by
            rw [List.getD_eq_getElem?_getD, List.getElem?_eq_none (by omega)]
            rfl
          have e2 : M.getD j default = default := by
            rw [List.getD_eq_getElem?_getD, List.getElem?_eq_none (by omega)]
            rfl
          unfold pairAt
          rw [e1, e2]
      have hTpair : ∀ j, pairAt t.fields j = pairAt M j := by
        intro j
        rw [htf, offsets_assign_pairAt, hpairLM]
      have hTlen : t.fields.length = M.length := by
        rw [htf, offsets_assign_length]
        omega
      intro i hi
      have hiM : i < M.length := by omega
      have hTflags : (t.fields.getD i default).flags = (L.getD i default).flags := by
        rw [htf]
        exact offsets_assign_flagsAt L i 0
      have hLi := hLget i hiM
      constructor
      · rw [hTflags, hLi]
        show (decide (IsLastOcc M i) = true) ↔ _
        rw [decide_eq_true_eq]
        exact IsLastOcc_congr M t.fields (by omega) (fun j => (hTpair j).symm) i
      · rw [hTflags, hLi]
        show (decide (DupSince M 0 i) = true) ↔ _
        rw [decide_eq_true_eq,
          DupSince_congr M t.fields (by omega) (fun j => (hTpair j).symm) 0 i]
        exact DupSince_zero_iff t.fields i
  refine ⟨hmain, ?_⟩
  intro p hex
  exact last_ie_unique t.fields (fun i hi => (hmain i hi).1) p hex

/-- The raw bytes of spec scenario S6 (duplicate IE 8). -/
def S6_bytes : List Nat := [1, 0, 0, 3, 0, 8, 0, 4, 0, 12, 0, 4, 0, 8, 0, 4]

/-- The template value that `fds_template_parse` produces on `S6_bytes`. -/
def S6_tmplt : fds_template :=
  { type := .FDS_TYPE_TEMPLATE
    id := 256
    fields_cnt_scope := 0
    data_length := 12
    flags := { has_multi_ie := true }
    opts_types := {}
    fields := [{ id := 8, en := 0, length := 4, offset := 0, flags := { multi_ie := true } },
               { id := 12, en := 0, length := 4, offset := 4, flags := { last_ie := true } },
               { id := 8, en := 0, length := 4, offset := 8,
                 flags := { multi_ie := true, last_ie := true } }]
    raw := S6_bytes }

theorem claim_C1_witness :
    fds_template_parse .FDS_TYPE_TEMPLATE S6_bytes 16 = .ok (S6_tmplt, 16) ∧
    ((∀ i, i < S6_tmplt.fields.length →
      (((S6_tmplt.fields.getD i default).flags.last_ie = true ↔ IsLastOcc S6_tmplt.fields i) ∧
       ((S6_tmplt.fields.getD i default).flags.multi_ie = true ↔
          ∃ k, k < S6_tmplt.fields.length ∧ k ≠ i ∧
            pairAt S6_tmplt.fields k = pairAt S6_tmplt.fields i))) ∧
     (∀ p : Nat × Nat, (∃ i, i < S6_tmplt.fields.length ∧ pairAt S6_tmplt.fields i = p) →
       ∃! i, i < S6_tmplt.fields.length ∧ pairAt S6_tmplt.fields i = p ∧
         (S6_tmplt.fields.getD i default).flags.last_ie = true)) :=
  ⟨by decide, claim_C1 .FDS_TYPE_TEMPLATE S6_bytes 16 S6_tmplt 16 (by decide)⟩

/-! ## The HAS_FKEY invariant (claim C9) -/

/-- The invariant: HAS_FKEY is set iff some field carries FLOW_KEY. -/
def FkeyInv (t : fds_template) : Prop :=
  t.flags.has_fkey = true ↔ ∃ f ∈ t.fields, f.flags.flow_key = true

theorem exists_mem_iff_getD (l : List fds_tfield) (P : fds_tfield → Prop) :
    (∃ f ∈ l, P f) ↔ ∃ j, j < l.length ∧ P (l.getD j default) := by
  constructor
  · rintro ⟨f, hf, hP⟩
    obtain ⟨j, hj, hje⟩ := List.mem_iff_getElem.mp hf
    refine ⟨j, hj, ?_⟩
    rw [List.getD_eq_getElem?_getD, List.getElem?_eq_getElem hj]
    simpa [hje] using hP
  · rintro ⟨j, hj, hP⟩
    refine ⟨l.getD j default, ?_, hP⟩
    rw [List.getD_eq_getElem?_getD, List.getElem?_eq_getElem hj]
    exact List.getElem_mem _

theorem calc_features_loop_fkey :
    ∀ (l : List fds_tfield) (dl off : Nat) (fl : TemplateFlags),
      (calc_features_loop l dl off fl).2.2.has_fkey = fl.has_fkey := by
  intro l
  induction l with
  | nil => intro dl off fl; rfl
  | cons f rest ih =>
    intro dl off fl
    by_cases h : f.length = IPFIX_VAR_IE_LENGTH <;>
      by_cases hm : f.flags.multi_ie <;>
      simp [calc_features_loop, h, hm, ih]

theorem set_tflags_preserves (P : TFieldFlags → Prop) (g : TFieldFlags → TFieldFlags)
    (hg : ∀ fl, P fl → P (g fl)) (cur : List fds_tfield) (i : Nat)
    (h : ∀ j, P ((cur.getD j default).flags)) :
    ∀ j, P (((set_tflags cur i g).getD j default).flags) := by
  intro j
  rw [List.getD_eq_getElem?_getD, set_tflags_getElem?]
  by_cases hji : j = i
  · subst hji
    rw [if_pos rfl]
    cases hc : cur[j]? with
    | none =>
      have : cur.getD j default = default := by
        rw [List.getD_eq_getElem?_getD, hc]
        rfl
      have hdef := h j
      rw [this] at hdef
      simpa using hdef
    | some f =>
      have hfj : f = cur.getD j default := by
        rw [List.getD_eq_getElem?_getD, hc]
        rfl
      simp only [Option.map_some', Option.getD_some]
      apply hg
      rw [hfj]
      exact h j
  · rw [if_neg hji, ← List.getD_eq_getElem?_getD]
    exact h j

/-- `calc_flags_loop` only updates LAST_IE and MULTI_IE: every pointwise
flag property preserved by those two updates is preserved by the loop. -/
theorem calc_flags_loop_preserves (P : TFieldFlags → Prop)
    (hP1 : ∀ fl, P fl → P { fl with last_ie := true })
    (hP2 : ∀ fl, P fl → P { fl with multi_ie := true }) :
    ∀ (i hash : Nat) (cur : List fds_tfield),
      (∀ j, P ((cur.getD j default).flags)) →
      ∀ j, P (((calc_flags_loop cur hash i).getD j default).flags) := by
  intro i
  induction i with
  | zero =>
    intro hash cur h j
    rw [calc_flags_loop]
    exact h j
  | succ i ih =>
    intro hash cur h j
    simp only [calc_flags_loop]
    by_cases hbit : hash &&& 2 ^ ((cur.getD i default).id % 64) = 0
    · rw [if_pos hbit]
      exact ih _ _ (set_tflags_preserves P _ (fun fl => hP1 fl) cur i h) j
    · rw [if_neg hbit]
      cases hscan : same_ie_find cur (cur.getD i default).id (cur.getD i default).en
          (i + 1) with
      | some x =>
        exact ih _ _
          (set_tflags_preserves P _ (fun fl => hP2 fl) _ x
            (set_tflags_preserves P _ (fun fl => hP2 fl) cur i h)) j
      | none =>
        exact ih _ _ (set_tflags_preserves P _ (fun fl => hP1 fl) cur i h) j

/-- A freshly parsed template has HAS_FKEY clear and no FLOW_KEY flags. -/
theorem fds_template_parse_fkey_clear (type : fds_template_type) (bytes : List Nat)
    (len : Nat) (t : fds_template) (n : Nat)
    (h : fds_template_parse type bytes len = .ok (t, n)) :
    t.flags.has_fkey = false ∧
    ∀ j, (t.fields.getD j default).flags.flow_key = false := by
  obtain ⟨t0, hdr, hh, hcase⟩ := fds_template_parse_ok_inv type bytes len t n h
  obtain ⟨-, -, -, -, hfl, -, -, -, -, -, -, -⟩ :=
    template_parse_header_ok_inv type bytes len t0 hdr hh
  rcases hcase with ⟨h0, -, ht⟩ | ⟨-, fields, lf, hf, -, hc⟩
  · have hnil : t0.fields = [] := List.length_eq_zero.mp h0
    subst ht
    constructor
    · show t0.flags.has_fkey = false
      rw [hfl]
    · intro j
      show (t0.fields.getD j default).flags.flow_key = false
      rw [hnil]
      rfl
  · obtain ⟨rem, hgo, -⟩ := template_parse_fields_ok_inv _ _ _ _ _ _ hf
    set M := template_mark_scope fields t0.fields_cnt_scope with hM
    set L := calc_flags_loop M 0 M.length with hLdef
    obtain ⟨hle, o, ho⟩ := template_calc_features_ok_inv _ _ hc
    have htf : t.fields = offsets_assign L 0 := by
      rw [ho]
      exact calc_features_loop_fields L 0 0 _
    have hfieldflags : ∀ f ∈ fields, f.flags = ({} : TFieldFlags) := by
      intro f hf2
      exact (template_parse_fields_go_flags bytes t0.fields_cnt_total hdr (len - hdr)
        fields rem hgo f hf2).1
    have hMget := template_mark_scope_getElem? fields t0.fields_cnt_scope
    have hMlen : M.length = fields.length := cur_length_eq M fields _ hMget
    have hMfk : ∀ j, (M.getD j default).flags.flow_key = false := by
      intro j
      by_cases hj : j < M.length
      · have hjf : j < fields.length := by omega
        have hfj : fields[j]? = some (fields.getD j default) := tfield_getElem?_eq _ _ hjf
        have hMj : M.getD j default =
            (if j < t0.fields_cnt_scope then
              { fields.getD j default with
                flags := { (fields.getD j default).flags with scope := true } }
             else fields.getD j default) := by
          rw [List.getD_eq_getElem?_getD, hMget j, hfj]
          rfl
        have hmem : fields.getD j default ∈ fields := by
          rw [List.getD_eq_getElem?_getD, List.getElem?_eq_getElem hjf]
          exact List.getElem_mem _
        have hzero := hfieldflags _ hmem
        rw [hMj]
        split <;> rw [hzero]
      · rw [List.getD_eq_getElem?_getD, List.getElem?_eq_none (by omega)]
        rfl
    have hLfk : ∀ j, ((L.getD j default).flags).flow_key = false :=
      calc_flags_loop_preserves (fun fl => fl.flow_key = false)
        (fun fl hfl => hfl) (fun fl hfl => hfl) M.length 0 M hMfk
    constructor
    · have hflags : t.flags = (calc_features_loop L 0 0
          (template_fields_calc_flags
            { t0 with fields := fields,
                      raw := template_raw_copy bytes (hdr + lf) }).flags).2.2 := by
        rw [ho]
        rfl
      rw [hflags, calc_features_loop_fkey]
      show t0.flags.has_fkey = false
      rw [hfl]
    · intro j
      rw [htf, offsets_assign_flagsAt]
      exact hLfk j

theorem biflow_mark_flow_key (f : fds_tfield) :
    (biflow_mark f).flags.flow_key = f.flags.flow_key := by
  simp only [biflow_mark]
  repeat' split
  all_goals rfl

theorem template_ies_biflow_field_flow_key (t : fds_template) (f : fds_tfield) :
    (template_ies_biflow_field t f).flags.flow_key = f.flags.flow_key := by
  unfold template_ies_biflow_field
  repeat' split
  all_goals first
    | rfl
    | exact biflow_mark_flow_key f

theorem ies_define_step_flow_key (g : Option fds_iemgr) (p : Bool) (f : fds_tfield) :
    ((ies_define_step g p f).1).flags.flow_key = f.flags.flow_key := by
  simp only [ies_define_step]
  repeat' split
  all_goals rfl

theorem ies_define_loop_fields (g : Option fds_iemgr) (p : Bool) :
    ∀ (l : List fds_tfield) (hr hs : Bool),
      (ies_define_loop g p l hr hs).1 = l.map (fun f => (ies_define_step g p f).1) := by
  intro l
  induction l with
  | nil => intro hr hs; rfl
  | cons f rest ih => intro hr hs; simp [ies_define_loop, ih]

theorem exists_fkey_map (l : List fds_tfield) (φ : fds_tfield → fds_tfield)
    (hφ : ∀ f, (φ f).flags.flow_key = f.flags.flow_key) :
    (∃ f ∈ l.map φ, f.flags.flow_key = true) ↔ (∃ f ∈ l, f.flags.flow_key = true) := by
  constructor
  · rintro ⟨f, hf, hP⟩
    rw [List.mem_map] at hf
    obtain ⟨f0, hf0, rfl⟩ := hf
    exact ⟨f0, hf0, by rw [← hφ f0]; exact hP⟩
  · rintro ⟨f0, hf0, hP⟩
    exact ⟨φ f0, List.mem_map_of_mem φ hf0, by rw [hφ f0]; exact hP⟩

theorem template_ies_biflow_flags (t : fds_template) :
    (template_ies_biflow t).flags = t.flags := rfl

theorem ies_define_apply_flags_fkey (t : fds_template) (hr hs : Bool) :
    (ies_define_apply_flags t hr hs).flags.has_fkey = t.flags.has_fkey := by
  simp only [ies_define_apply_flags]
  repeat' split
  all_goals rfl

theorem ies_define_apply_flags_fields (t : fds_template) (hr hs : Bool) :
    (ies_define_apply_flags t hr hs).fields = t.fields := by
  simp only [ies_define_apply_flags]
  repeat' split
  all_goals rfl

theorem fds_template_ies_define_fkey (t : fds_template) (g : Option fds_iemgr)
    (p : Bool) :
    (fds_template_ies_define t g p).flags.has_fkey = t.flags.has_fkey ∧
    ((∃ f ∈ (fds_template_ies_define t g p).fields, f.flags.flow_key = true) ↔
      (∃ f ∈ t.fields, f.flags.flow_key = true)) := by
  have hstepφ : ∀ f, ((ies_define_step g p f).1).flags.flow_key = f.flags.flow_key :=
    ies_define_step_flow_key g p
  have hloop := ies_define_loop_fields g p t.fields false false
  have base : (∃ f ∈ (ies_define_loop g p t.fields false false).1,
      f.flags.flow_key = true) ↔ (∃ f ∈ t.fields, f.flags.flow_key = true) := by
    rw [hloop]
    exact exists_fkey_map _ _ hstepφ
  have biflowcase : ∀ t2 : fds_template,
      t2.fields = (ies_define_loop g p t.fields false false).1 →
      ((∃ f ∈ (template_ies_biflow t2).fields, f.flags.flow_key = true) ↔
        (∃ f ∈ t.fields, f.flags.flow_key = true)) := by
    intro t2 ht2
    have hb : (template_ies_biflow t2).fields =
        t2.fields.map (template_ies_biflow_field t2) := rfl
    rw [hb, ht2]
    exact (exists_fkey_map _ _ (template_ies_biflow_field_flow_key t2)).trans base
  constructor
  · simp only [fds_template_ies_define]
    repeat' split
    all_goals first
      | rfl
      | (rw [template_ies_biflow_flags, ies_define_apply_flags_fkey])
      | (rw [ies_define_apply_flags_fkey])
  · simp only [fds_template_ies_define]
    repeat' split
    all_goals first
      | exact Iff.rfl
      | exact biflowcase _ (ies_define_apply_flags_fields _ _ _)
      | (rw [ies_define_apply_flags_fields]; exact base)

theorem flowkey_set_loop_getD (l : List fds_tfield) :
    ∀ (fk i : Nat), i < l.length →
      ((flowkey_set_loop l fk).getD i default).flags.flow_key =
        decide ((fk >>> i) &&& 1 = 1) := by
  induction l with
  | nil =>
    intro fk i hi
    simp at hi
  | cons f rest ih =>
    intro fk i hi
    cases i with
    | zero =>
      show ((if fk &&& 1 = 1 then _ else _ : fds_tfield)).flags.flow_key = _
      by_cases h1 : fk % 2 = 1 <;> simp [Nat.and_one_is_mod, h1]
    | succ i' =>
      show ((flowkey_set_loop rest (fk >>> 1)).getD i' default).flags.flow_key = _
      rw [ih (fk >>> 1) i' (by simpa using hi)]
      congr 2
      rw [Nat.add_comm i' 1, Nat.shiftRight_add fk 1 i']

theorem testBit_iff_shift_and (k i : Nat) :
    k.testBit i = true ↔ (k >>> i) &&& 1 = 1 := by
  rw [Nat.testBit_to_div_mod, Nat.and_one_is_mod, Nat.shiftRight_eq_div_pow]
  simp

/-- `fds_template_flowkey_define` re-establishes the HAS_FKEY invariant. -/
theorem fds_template_flowkey_define_inv (t : fds_template) (k : Nat)
    (t2 : fds_template) (h : fds_template_flowkey_define t k = .ok t2) :
    FkeyInv t2 := by
  by_cases happ : bit_highest k > t.fields_cnt_total
  · have : fds_template_flowkey_applicable t k = .error .FORMAT := by
      unfold fds_template_flowkey_applicable
      rw [if_pos happ]
    unfold fds_template_flowkey_define at h
    rw [this] at h
    cases h
  · have happ2 : fds_template_flowkey_applicable t k = .ok () := by
      unfold fds_template_flowkey_applicable
      rw [if_neg happ]
    unfold fds_template_flowkey_define at h
    rw [happ2] at h
    have hk2 : k < 2 ^ t.fields_cnt_total :=
      (bit_highest_le_iff t.fields_cnt_total k).mp (by omega)
    by_cases hk : k = 0
    · subst hk
      rw [if_neg (by simp)] at h
      simp only [Except.ok.injEq] at h
      subst h
      unfold FkeyInv
      constructor
      · intro hfalse
        cases hfalse
      · rintro ⟨f, hf, hfl⟩
        have hf2 : f ∈ flowkey_set_loop t.fields 0 := hf
        obtain ⟨j, hj, hPj⟩ :=
          (exists_mem_iff_getD (flowkey_set_loop t.fields 0)
            (fun f => f.flags.flow_key = true)).mp ⟨f, hf2, hfl⟩
        rw [flowkey_set_loop_getD t.fields 0 j
            (by rw [← flowkey_set_loop_length t.fields 0]; omega)] at hPj
        simp at hPj
    · rw [if_pos hk] at h
      simp only [Except.ok.injEq] at h
      subst h
      unfold FkeyInv
      constructor
      · intro _
        obtain ⟨i, hbit⟩ := Nat.ne_zero_implies_bit_true hk
        have hilt : i < t.fields.length := by
          by_contra hge
          rw [Nat.testBit_lt_two_pow (by
            calc k < 2 ^ t.fields_cnt_total := hk2
              _ ≤ 2 ^ i := Nat.pow_le_pow_right (by omega)
                  (by unfold fds_template.fields_cnt_total at *; omega))] at hbit
          cases hbit
        refine (exists_mem_iff_getD _ _).mpr ⟨i, ?_, ?_⟩
        · rw [flowkey_set_loop_length]
          exact hilt
        · rw [flowkey_set_loop_getD t.fields k i hilt]
          simp only [decide_eq_true_eq]
          exact (testBit_iff_shift_and k i).mp hbit
      · intro _
        rfl

/-- The fast path of `fds_template_flowkey_cmp` for `k = 0` is exact under
the HAS_FKEY invariant. -/
theorem fds_template_flowkey_cmp_zero (t : fds_template) (hInv : FkeyInv t) :
    (fds_template_flowkey_cmp t 0 = 0 ↔ ∀ f ∈ t.fields, f.flags.flow_key = false) := by
  cases hfk : t.flags.has_fkey with
  | false =>
    have h0 : fds_template_flowkey_cmp t 0 = 0 := by
      simp [fds_template_flowkey_cmp, hfk]
    rw [h0]
    constructor
    · intro _ f hmem
      cases hfl : f.flags.flow_key
      · rfl
      · exact absurd (hInv.mpr ⟨f, hmem, hfl⟩) (by simp [hfk])
    · intro _
      rfl
  | true =>
    have h1 : fds_template_flowkey_cmp t 0 = 1 := by
      simp [fds_template_flowkey_cmp, hfk]
    rw [h1]
    obtain ⟨f0, hf0, hfl⟩ := hInv.mp hfk
    constructor
    · intro h
      cases h
    · intro hall
      rw [hall f0 hf0] at hfl
      cases hfl

/--
**C9.** Every template reachable through the public API satisfies the
invariant "HAS_FKEY is set iff some field carries FLOW_KEY": `parse`
establishes it, `copy`, `ies_define` and `flowkey_define` preserve
(re-establish) it, and under the invariant the `k = 0` fast path of
`flowkey_cmp` (which inspects no field) answers exactly.
-/
theorem claim_C9 :
    (∀ (type : fds_template_type) (bytes : List Nat) (len : Nat)
        (t : fds_template) (n : Nat),
      fds_template_parse type bytes len = .ok (t, n) → FkeyInv t) ∧
    (∀ t t2 : fds_template, FkeyInv t → fds_template_copy t = some t2 → FkeyInv t2) ∧
    (∀ (t : fds_template) (g : Option fds_iemgr) (p : Bool),
      FkeyInv t → FkeyInv (fds_template_ies_define t g p)) ∧
    (∀ (t : fds_template) (k : Nat) (t2 : fds_template),
      fds_template_flowkey_define t k = .ok t2 → FkeyInv t2) ∧
    (∀ t : fds_template, FkeyInv t →
      (fds_template_flowkey_cmp t 0 = 0 ↔ ∀ f ∈ t.fields, f.flags.flow_key = false)) := by
  refine ⟨?_, ?_, ?_, fds_template_flowkey_define_inv, fds_template_flowkey_cmp_zero⟩
  · intro type bytes len t n h
    obtain ⟨hfkey, hfields⟩ := fds_template_parse_fkey_clear type bytes len t n h
    unfold FkeyInv
    rw [hfkey]
    constructor
    · intro hfalse
      cases hfalse
    · rintro ⟨f, hf, hfl⟩
      obtain ⟨j, hj, hPj⟩ :=
        (exists_mem_iff_getD t.fields (fun f => f.flags.flow_key = true)).mp ⟨f, hf, hfl⟩
      rw [hfields j] at hPj
      cases hPj
  · intro t t2 hInv hcopy
    unfold fds_template_copy at hcopy
    simp only [Option.some.injEq] at hcopy
    rw [← hcopy]
    exact hInv
  · intro t g p hInv
    obtain ⟨h1, h2⟩ := fds_template_ies_define_fkey t g p
    unfold FkeyInv
    rw [h1, h2]
    exact hInv

theorem claim_C9_witness :
    fds_template_parse .FDS_TYPE_TEMPLATE S1_bytes 12 = .ok (S1_tmplt, 12) ∧
    FkeyInv S1_tmplt ∧
    (fds_template_flowkey_cmp S1_tmplt 0 = 0 ↔
      ∀ f ∈ S1_tmplt.fields, f.flags.flow_key = false) :=
  ⟨by decide,
   claim_C9.1 .FDS_TYPE_TEMPLATE S1_bytes 12 S1_tmplt 12 (by decide),
   claim_C9.2.2.2.2 S1_tmplt
     (claim_C9.1 .FDS_TYPE_TEMPLATE S1_bytes 12 S1_tmplt 12 (by decide))⟩

/-! ## Determinism of `fds_template_parse` in the consumed bytes -/

theorem read_u16_congr (b1 b2 : List Nat) (p : Nat)
    (h0 : byteAt b2 p = byteAt b1 p) (h1 : byteAt b2 (p + 1) = byteAt b1 (p + 1)) :
    read_u16 b2 p = read_u16 b1 p := by
  unfold read_u16
  rw [h0, h1]

theorem read_u32_congr (b1 b2 : List Nat) (p : Nat)
    (h0 : byteAt b2 p = byteAt b1 p) (h1 : byteAt b2 (p + 1) = byteAt b1 (p + 1))
    (h2 : byteAt b2 (p + 2) = byteAt b1 (p + 2))
    (h3 : byteAt b2 (p + 3) = byteAt b1 (p + 3)) :
    read_u32 b2 p = read_u32 b1 p := by
  unfold read_u32
  rw [h0, h1, h2, h3]

theorem template_raw_copy_congr (b1 b2 : List Nat) (len : Nat)
    (hag : ∀ i, i < len → byteAt b2 i = byteAt b1 i) :
    template_raw_copy b2 len = template_raw_copy b1 len := by
  unfold template_raw_copy
  refine List.map_congr_left ?_
  intro i hi
  exact hag i (List.mem_range.mp hi)

/-- `template_parse_header` depends only on the `hdr` bytes it consumed. -/
theorem template_parse_header_det (type : fds_template_type) (bytes1 : List Nat)
    (len1 : Nat) (t0 : fds_template) (hdr : Nat)
    (h : template_parse_header type bytes1 len1 = .ok (t0, hdr)) :
    ∀ (bytes2 : List Nat) (len2 : Nat), hdr ≤ len2 →
      (∀ i, i < hdr → byteAt bytes2 i = byteAt bytes1 i) →
      template_parse_header type bytes2 len2 = .ok (t0, hdr) := by
  intro bytes2 len2 hlen hag
  obtain ⟨-, -, -, -, -, -, -, -, h4len, hid, hdr46, -⟩ :=
    template_parse_header_ok_inv type bytes1 len1 t0 hdr h
  have h4 : 4 ≤ hdr := by omega
  have e0 : read_u16 bytes2 0 = read_u16 bytes1 0 :=
    read_u16_congr _ _ 0 (hag 0 (by omega)) (hag (0 + 1) (by omega))
  have e2 : read_u16 bytes2 2 = read_u16 bytes1 2 :=
    read_u16_congr _ _ 2 (hag 2 (by omega)) (hag (2 + 1) (by omega))
  simp only [template_parse_header, IPFIX_SET_MIN_DATA_SET_ID] at h ⊢
  rw [if_neg (show ¬ len2 < 4 by omega)]
  rw [if_neg (show ¬ len1 < 4 by omega)] at h
  rw [e0, e2]
  rw [if_neg (show ¬ read_u16 bytes1 0 < 256 by omega)] at h ⊢
  by_cases hopts : read_u16 bytes1 2 ≠ 0 ∧ type = .FDS_TYPE_TEMPLATE_OPTS
  · rw [if_pos hopts] at h ⊢
    by_cases hl6 : len1 < 6
    · rw [if_pos hl6] at h
      exact absurd h (by simp)
    rw [if_neg hl6] at h
    by_cases hsc : read_u16 bytes1 4 = 0 ∨ read_u16 bytes1 4 > read_u16 bytes1 2
    · rw [if_pos hsc] at h
      exact absurd h (by simp)
    rw [if_neg hsc] at h
    simp only [Except.ok.injEq, Prod.mk.injEq] at h
    obtain ⟨ht0, hhdr⟩ := h
    have e4 : read_u16 bytes2 4 = read_u16 bytes1 4 :=
      read_u16_congr _ _ 4 (hag 4 (by omega)) (hag (4 + 1) (by omega))
    rw [e4]
    rw [if_neg (show ¬ len2 < 6 by omega)]
    rw [if_neg hsc]
    rw [ht0, hhdr]
  · rw [if_neg hopts] at h ⊢
    simp only [Except.ok.injEq, Prod.mk.injEq] at h
    obtain ⟨ht0, hhdr⟩ := h
    rw [ht0, hhdr]

/-- The field-specifier loop depends only on the bytes it consumed: a run
that succeeds consuming `rem1 - rem1x` bytes succeeds identically on any
memory agreeing on those bytes, with any declared remainder at least as
large, consuming the same amount. -/
theorem template_parse_fields_go_det (bytes1 : List Nat) :
    ∀ (n pos rem1 : Nat) (fs : List fds_tfield) (rem1x : Nat),
      template_parse_fields_go bytes1 pos rem1 n = .ok (fs, rem1x) →
      rem1x ≤ rem1 ∧
      ∀ (bytes2 : List Nat) (rem2 : Nat), rem1 - rem1x ≤ rem2 →
        (∀ o, o < rem1 - rem1x → byteAt bytes2 (pos + o) = byteAt bytes1 (pos + o)) →
        template_parse_fields_go bytes2 pos rem2 n = .ok (fs, rem2 - (rem1 - rem1x)) := by
  intro n
  induction n with
  | zero =>
    intro pos rem1 fs rem1x h
    simp only [template_parse_fields_go, Except.ok.injEq, Prod.mk.injEq] at h
    obtain ⟨hfs, hrem⟩ := h
    refine ⟨by omega, ?_⟩
    intro bytes2 rem2 hle hag
    simp only [template_parse_fields_go, Except.ok.injEq, Prod.mk.injEq]
    exact ⟨hfs, by omega⟩
  | succ k ih =>
    intro pos rem1 fs rem1x h
    simp only [template_parse_fields_go] at h
    by_cases hr4 : rem1 < 4
    · rw [if_pos hr4] at h
      exact absurd h (by simp)
    rw [if_neg hr4] at h
    by_cases hbit : read_u16 bytes1 pos &&& 0x8000 = 0
    · rw [if_pos hbit] at h
      cases hrec : template_parse_fields_go bytes1 (pos + 4) (rem1 - 4) k with
      | error e =>
        rw [hrec] at h
        exact absurd h (by simp)
      | ok pr =>
        obtain ⟨rest, rem⟩ := pr
        rw [hrec] at h
        simp only [Except.ok.injEq, Prod.mk.injEq] at h
        obtain ⟨hfs, hrem⟩ := h
        obtain ⟨hle0, hdet⟩ := ih (pos + 4) (rem1 - 4) rest rem hrec
        refine ⟨by omega, ?_⟩
        intro bytes2 rem2 hle hag
        have e0 : read_u16 bytes2 pos = read_u16 bytes1 pos :=
          read_u16_congr _ _ pos
            (by have h0 := hag 0 (by omega); simpa using h0)
            (hag 1 (by omega))
        have e2 : read_u16 bytes2 (pos + 2) = read_u16 bytes1 (pos + 2) :=
          read_u16_congr _ _ (pos + 2)
            (hag 2 (by omega))
            (by have h3 := hag 3 (by omega)
                have e : pos + 2 + 1 = pos + 3 := by omega
                rw [e]
                exact h3)
        have hagr : ∀ o, o < (rem1 - 4) - rem →
            byteAt bytes2 (pos + 4 + o) = byteAt bytes1 (pos + 4 + o) := by
          intro o ho
          have hx := hag (4 + o) (by omega)
          rw [Nat.add_assoc]
          exact hx
        have hrec2 := hdet bytes2 (rem2 - 4) (by omega) hagr
        simp only [template_parse_fields_go]
        rw [if_neg (show ¬ rem2 < 4 by omega)]
        rw [e0, e2]
        rw [if_pos hbit]
        rw [hrec2]
        simp only [Except.ok.injEq, Prod.mk.injEq]
        exact ⟨hfs, by omega⟩
    · rw [if_neg hbit] at h
      by_cases hr8 : rem1 - 4 < 4
      · rw [if_pos hr8] at h
        exact absurd h (by simp)
      rw [if_neg hr8] at h
      cases hrec : template_parse_fields_go bytes1 (pos + 8) (rem1 - 8) k with
      | error e =>
        rw [hrec] at h
        exact absurd h (by simp)
      | ok pr =>
        obtain ⟨rest, rem⟩ := pr
        rw [hrec] at h
        simp only [Except.ok.injEq, Prod.mk.injEq] at h
        obtain ⟨hfs, hrem⟩ := h
        obtain ⟨hle0, hdet⟩ := ih (pos + 8) (rem1 - 8) rest rem hrec
        refine ⟨by omega, ?_⟩
        intro bytes2 rem2 hle hag
        have e0 : read_u16 bytes2 pos = read_u16 bytes1 pos :=
          read_u16_congr _ _ pos
            (by have h0 := hag 0 (by omega); simpa using h0)
            (hag 1 (by omega))
        have e2 : read_u16 bytes2 (pos + 2) = read_u16 bytes1 (pos + 2) :=
          read_u16_congr _ _ (pos + 2)
            (hag 2 (by omega))
            (by have h3 := hag 3 (by omega)
                have e : pos + 2 + 1 = pos + 3 := by omega
                rw [e]
                exact h3)
        have e4 : read_u32 bytes2 (pos + 4) = read_u32 bytes1 (pos + 4) :=
          read_u32_congr _ _ (pos + 4)
            (hag 4 (by omega))
            (by have h5 := hag 5 (by omega)
                have e : pos + 4 + 1 = pos + 5 := by omega
                rw [e]
                exact h5)
            (by have h6 := hag 6 (by omega)
                have e : pos + 4 + 2 = pos + 6 := by omega
                rw [e]
                exact h6)
            (by have h7 := hag 7 (by omega)
                have e : pos + 4 + 3 = pos + 7 := by omega
                rw [e]
                exact h7)
        have hagr : ∀ o, o < (rem1 - 8) - rem →
            byteAt bytes2 (pos + 8 + o) = byteAt bytes1 (pos + 8 + o) := by
          intro o ho
          have hx := hag (8 + o) (by omega)
          rw [Nat.add_assoc]
          exact hx
        have hrec2 := hdet bytes2 (rem2 - 8) (by omega) hagr
        simp only [template_parse_fields_go]
        rw [if_neg (show ¬ rem2 < 4 by omega)]
        rw [e0, e2, e4]
        rw [if_neg hbit]
        rw [if_neg (show ¬ rem2 - 4 < 4 by omega)]
        rw [hrec2]
        simp only [Except.ok.injEq, Prod.mk.injEq]
        exact ⟨hfs, by omega⟩

/--
**C10.** The outcome of `fds_template_parse` depends only on the bytes it
consumes: if a call succeeds consuming `N` bytes, then on any raw memory
agreeing with the original on its first `N` bytes, and under any declared
length at least `N`, the parser succeeds with the exact same template —
field for field, flag for flag, and byte for byte in `raw` — and again
reports `N` bytes consumed.
-/
theorem claim_C10 (type : fds_template_type) (bytes1 : List Nat) (len1 : Nat)
    (t : fds_template) (N : Nat)
    (h : fds_template_parse type bytes1 len1 = .ok (t, N)) :
    N ≤ len1 ∧
    ∀ (bytes2 : List Nat) (len2 : Nat), N ≤ len2 →
      (∀ i, i < N → byteAt bytes2 i = byteAt bytes1 i) →
      fds_template_parse type bytes2 len2 = .ok (t, N) := by
  obtain ⟨t0, hdr, hhdr, hrest⟩ := fds_template_parse_ok_inv type bytes1 len1 t N h
  obtain ⟨-, -, -, -, -, -, -, -, -, -, hdr46, hdrlen⟩ :=
    template_parse_header_ok_inv type bytes1 len1 t0 hdr hhdr
  cases hrest with
  | inl hw =>
    obtain ⟨h0, hN, ht⟩ := hw
    refine ⟨by omega, ?_⟩
    intro bytes2 len2 hlen hag
    have hh2 := template_parse_header_det type bytes1 len1 t0 hdr hhdr bytes2 len2
      (by omega) (fun i hi => hag i (by omega))
    unfold fds_template_parse
    rw [hh2]
    simp only []
    rw [if_pos h0]
    rw [template_raw_copy_congr bytes1 bytes2 hdr (fun i hi => hag i (by omega))]
    rw [← ht, ← hN]
  | inr hnw =>
    obtain ⟨h0, fields, len_fields, hpf, hN, hcf⟩ := hnw
    have hgo : ∃ remx,
        template_parse_fields_go bytes1 hdr (len1 - hdr) t0.fields_cnt_total =
          .ok (fields, remx) ∧ len_fields = (len1 - hdr) - remx := by
      unfold template_parse_fields at hpf
      cases hg : template_parse_fields_go bytes1 hdr (len1 - hdr) t0.fields_cnt_total with
      | error e =>
        rw [hg] at hpf
        exact absurd hpf (by simp)
      | ok pr =>
        obtain ⟨fsx, remx⟩ := pr
        rw [hg] at hpf
        simp only [Except.ok.injEq, Prod.mk.injEq] at hpf
        refine ⟨remx, ?_, hpf.2.symm⟩
        rw [← hpf.1]
    obtain ⟨remx, hgo1, hlf⟩ := hgo
    obtain ⟨hrle, hdet⟩ := template_parse_fields_go_det bytes1 t0.fields_cnt_total hdr
      (len1 - hdr) fields remx hgo1
    refine ⟨by omega, ?_⟩
    intro bytes2 len2 hlen hag
    have hh2 := template_parse_header_det type bytes1 len1 t0 hdr hhdr bytes2 len2
      (by omega) (fun i hi => hag i (by omega))
    have hagr : ∀ o, o < (len1 - hdr) - remx →
        byteAt bytes2 (hdr + o) = byteAt bytes1 (hdr + o) := by
      intro o ho
      exact hag (hdr + o) (by omega)
    have hgo2 := hdet bytes2 (len2 - hdr) (by omega) hagr
    have hpf2 : template_parse_fields bytes2 hdr (len2 - hdr) t0.fields_cnt_total =
        .ok (fields, len_fields) := by
      unfold template_parse_fields
      rw [hgo2]
      simp only [Except.ok.injEq, Prod.mk.injEq]
      exact ⟨trivial, by omega⟩
    unfold fds_template_parse
    rw [hh2]
    simp only []
    rw [if_neg h0]
    rw [hpf2]
    simp only []
    rw [template_raw_copy_congr bytes1 bytes2 (hdr + len_fields)
      (fun i hi => hag i (by omega))]
    rw [hcf]
    rw [hN]

theorem claim_C10_witness :
    fds_template_parse .FDS_TYPE_TEMPLATE S1_bytes 12 = .ok (S1_tmplt, 12) ∧
    (12 ≤ 13 ∧ ∀ i, i < 12 → byteAt (S1_bytes ++ [255]) i = byteAt S1_bytes i) ∧
    fds_template_parse .FDS_TYPE_TEMPLATE (S1_bytes ++ [255]) 13 = .ok (S1_tmplt, 12) :=
  ⟨by decide, ⟨by decide, by decide⟩,
   (claim_C10 .FDS_TYPE_TEMPLATE S1_bytes 12 S1_tmplt 12 (by decide)).2
     (S1_bytes ++ [255]) 13 (by decide) (by decide)⟩

/-! ## Idempotence of `fds_template_ies_define` -/

theorem ies_define_step_idem (g : Option fds_iemgr) (p : Bool) (f : fds_tfield) :
    ies_define_step g p ((ies_define_step g p f).1) = ies_define_step g p f := by
  obtain ⟨fid, fen, flen, foff, ⟨s, m, l, fk, st, rv, bc, bs, bd⟩, fdef⟩ := f
  by_cases hp : p = true
  · subst hp
    cases fdef with
    | some d => simp [ies_define_step]
    | none =>
      cases g with
      | none => simp [ies_define_step]
      | some gm =>
        cases hlook : fds_iemgr_elem_find_id gm fen fid with
        | none => simp [ies_define_step, hlook]
        | some d =>
          cases hrev : d.is_reverse <;> cases hstr : is_structured d <;>
            simp [ies_define_step, hlook, hrev, hstr]
  · have hp2 : p = false := by
      cases p
      · rfl
      · exact absurd rfl hp
    subst hp2
    cases g with
    | none => simp [ies_define_step]
    | some gm =>
      cases hlook : fds_iemgr_elem_find_id gm fen fid with
      | none => simp [ies_define_step, hlook]
      | some d =>
        cases hrev : d.is_reverse <;> cases hstr : is_structured d <;>
          simp [ies_define_step, hlook, hrev, hstr]

theorem ies_define_step_biflow_field (g : Option fds_iemgr) (p : Bool)
    (t2 : fds_template) (f : fds_tfield) :
    ies_define_step g p (template_ies_biflow_field t2 f) = ies_define_step g p f := by
  obtain ⟨fid, fen, flen, foff, ⟨s, m, l, fk, st, rv, bc, bs, bd⟩, fdef⟩ := f
  simp only [template_ies_biflow_field, biflow_mark]
  repeat' split
  all_goals simp [ies_define_step]

theorem ies_define_loop_congr (g : Option fds_iemgr) (p : Bool)
    (φ : fds_tfield → fds_tfield) :
    ∀ (l : List fds_tfield),
      (∀ f ∈ l, ies_define_step g p (φ f) = ies_define_step g p f) →
      ∀ hr hs, ies_define_loop g p (l.map φ) hr hs = ies_define_loop g p l hr hs := by
  intro l
  induction l with
  | nil =>
    intro _ hr hs
    rfl
  | cons f rest ih =>
    intro hφ hr hs
    simp only [List.map_cons, ies_define_loop]
    rw [hφ f (List.mem_cons_self f rest)]
    rw [ih (fun x hx => hφ x (List.mem_cons_of_mem f hx)) _ _]

theorem ies_define_loop_stable (g : Option fds_iemgr) (p : Bool)
    (l : List fds_tfield) :
    ies_define_loop g p ((ies_define_loop g p l false false).1) false false =
      ies_define_loop g p l false false := by
  rw [ies_define_loop_fields g p l false false]
  exact ies_define_loop_congr g p _ l (fun f _ => ies_define_step_idem g p f) false false

theorem ies_define_loop_stable_biflow (g : Option fds_iemgr) (p : Bool)
    (t2 : fds_template) (l : List fds_tfield) :
    ies_define_loop g p
        ((ies_define_loop g p l false false).1.map (template_ies_biflow_field t2))
        false false =
      ies_define_loop g p l false false := by
  rw [ies_define_loop_fields g p l false false, List.map_map]
  refine ies_define_loop_congr g p _ l ?_ false false
  intro f _
  show ies_define_step g p
      (template_ies_biflow_field t2 ((ies_define_step g p f).1)) = _
  rw [ies_define_step_biflow_field, ies_define_step_idem]

theorem ies_define_apply_flags_final (t : fds_template) (hr hs : Bool) :
    ies_define_apply_flags t hr hs =
      { t with flags := { t.flags with has_reverse := hr, has_structured := hs } } := by
  cases hr <;> cases hs <;> simp [ies_define_apply_flags]

/--
**C8.** `fds_template_ies_define` is idempotent: with the dictionary
snapshot and the `preserve` argument fixed, a second call returns the first
call's template unchanged — same per-field flags (REVERSE, STRUCTURED and
the three biflow key flags), same IE definition bindings, and same
HAS_REVERSE / HAS_STRUCT template flags.
-/
theorem claim_C8 (t : fds_template) (g : Option fds_iemgr) (p : Bool) :
    fds_template_ies_define (fds_template_ies_define t g p) g p =
      fds_template_ies_define t g p := by
  by_cases htriv : (g.isNone && p) = true
  · simp [fds_template_ies_define, htriv]
  · have htriv2 : ¬ (Option.isNone g && p) = true := htriv
    cases hr : (ies_define_loop g p t.fields false false).2.1 with
    | true =>
      have hE : fds_template_ies_define t g p =
          template_ies_biflow
            { t with
                fields := (ies_define_loop g p t.fields false false).1,
                flags := { t.flags with
                  has_reverse := true,
                  has_structured := (ies_define_loop g p t.fields false false).2.2 } } := by
        simp only [fds_template_ies_define]
        rw [if_neg htriv2]
        rw [ies_define_apply_flags_final]
        rw [hr]
        rfl
      rw [hE]
      simp only [fds_template_ies_define, template_ies_biflow]
      rw [if_neg htriv2]
      rw [ies_define_loop_stable_biflow]
      rw [ies_define_apply_flags_final]
      rw [hr]
      rfl
    | false =>
      have hE : fds_template_ies_define t g p =
          { t with
              fields := (ies_define_loop g p t.fields false false).1,
              flags := { t.flags with
                has_reverse := false,
                has_structured := (ies_define_loop g p t.fields false false).2.2 } } := by
        simp only [fds_template_ies_define]
        rw [if_neg htriv2]
        rw [ies_define_apply_flags_final]
        rw [hr]
        rfl
      rw [hE]
      simp only [fds_template_ies_define]
      rw [if_neg htriv2]
      rw [ies_define_loop_stable]
      rw [ies_define_apply_flags_final]
      rw [hr]
      rfl

/-! ## The Exporting Process Reliability detector (claim C5) -/

/-- A raw Options template (id 256, 7 fields, 2 scope fields): IE 130 twice
in the scope, the required 166/167/168 and the two observation-time IEs
322/323 in the non-scope part. -/
def eproc_bytes : List Nat :=
  [1, 0, 0, 7, 0, 2,
   0, 130, 0, 4,
   0, 130, 0, 4,
   0, 166, 0, 4,
   0, 167, 0, 4,
   0, 168, 0, 4,
   1, 66, 0, 4,
   1, 67, 0, 4]

/-- The template value that `fds_template_parse` produces on `eproc_bytes`. -/
def eproc_tmplt : fds_template :=
  { type := .FDS_TYPE_TEMPLATE_OPTS
    id := 256
    fields_cnt_scope := 2
    data_length := 28
    flags := { has_multi_ie := true }
    opts_types := {}
    fields := [{ id := 130, en := 0, length := 4, offset := 0,
                 flags := { scope := true, multi_ie := true } },
               { id := 130, en := 0, length := 4, offset := 4,
                 flags := { scope := true, multi_ie := true, last_ie := true } },
               { id := 166, en := 0, length := 4, offset := 8,
                 flags := { last_ie := true } },
               { id := 167, en := 0, length := 4, offset := 12,
                 flags := { last_ie := true } },
               { id := 168, en := 0, length := 4, offset := 16,
                 flags := { last_ie := true } },
               { id := 322, en := 0, length := 4, offset := 20,
                 flags := { last_ie := true } },
               { id := 323, en := 0, length := 4, offset := 24,
                 flags := { last_ie := true } }]
    raw := eproc_bytes }

/--
**C5, counterexample.** On `eproc_bytes` the claimed three conditions all
hold — IE 130 appears as a scope field carrying LAST_IE (its second
occurrence), the non-scope fields include all of 166/167/168, and exactly
two non-scope fields are observation-time IEs — yet the classifier leaves
EPROC_RELIABILITY_STAT clear, because `opts_detect_eproc` tests the flags
of the *first* occurrence of IE 130 only (`fds_template_find`), and that
occurrence does not carry LAST_IE.
-/
theorem claim_C5_counterexample :
    fds_template_parse .FDS_TYPE_TEMPLATE_OPTS eproc_bytes 34 = .ok (eproc_tmplt, 34) ∧
    (∃ f ∈ eproc_tmplt.fields, (f.id = 130 ∨ f.id = 131 ∨ f.id = 144) ∧ f.en = 0 ∧
      f.flags.scope = true ∧ f.flags.last_ie = true) ∧
    (∀ r ∈ ([⟨166, 0⟩, ⟨167, 0⟩, ⟨168, 0⟩] : List opts_req_id),
      ∃ f ∈ eproc_tmplt.fields.drop eproc_tmplt.fields_cnt_scope,
        f.id = r.id ∧ f.en = r.en) ∧
    ((eproc_tmplt.fields.drop eproc_tmplt.fields_cnt_scope).filter
      (fun f => decide (f.en = 0 ∧ 322 ≤ f.id ∧ f.id ≤ 325))).length = 2 ∧
    eproc_tmplt.opts_types.eproc_reliability_stat = false := by
  refine ⟨by decide, by decide, by decide, by decide, by decide⟩

/-- Index-based characterisation of `List.find?`. -/
theorem find?_eq_some_idx (p : fds_tfield → Bool) :
    ∀ (l : List fds_tfield) (f : fds_tfield),
      l.find? p = some f ↔
        ∃ j, j < l.length ∧ l.getD j default = f ∧ p f = true ∧
          ∀ k, k < j → p (l.getD k default) = false := by
  intro l
  induction l with
  | nil =>
    intro f
    simp
  | cons a rest ih =>
    intro f
    by_cases hpa : p a = true
    · rw [List.find?_cons_of_pos _ hpa]
      constructor
      · intro h
        injection h with h
        exact ⟨0, by simp, h, h ▸ hpa, by omega⟩
      · rintro ⟨j, hj, hget, hpf, hmin⟩
        cases j with
        | zero =>
          simp only [List.getD_cons_zero] at hget
          rw [hget]
        | succ j2 =>
          have h0 := hmin 0 (by omega)
          simp only [List.getD_cons_zero] at h0
          rw [hpa] at h0
          cases h0
    · have hpa2 : p a = false := by
        cases hv : p a
        · rfl
        · exact absurd hv hpa
      rw [List.find?_cons_of_neg _ hpa]
      rw [ih f]
      constructor
      · rintro ⟨j, hj, hget, hpf, hmin⟩
        refine ⟨j + 1, by simp; omega, by simpa using hget, hpf, ?_⟩
        intro k hk
        cases k with
        | zero => simpa using hpa2
        | succ k2 => simpa using hmin k2 (by omega)
      · rintro ⟨j, hj, hget, hpf, hmin⟩
        cases j with
        | zero =>
          simp only [List.getD_cons_zero] at hget
          rw [← hget] at hpf
          rw [hpa2] at hpf
          cases hpf
        | succ j2 =>
          refine ⟨j2, by simp at hj; omega, by simpa using hget, hpf, ?_⟩
          intro k hk
          have := hmin (k + 1) (by omega)
          simpa using this

/-- `eproc_eid_found` declaratively: some exporter-identifier IE whose
lowest-index occurrence carries both SCOPE and LAST_IE. -/
theorem eproc_eid_found_iff (t : fds_template) :
    eproc_eid_found t = true ↔
      ∃ eid ∈ ([130, 131, 144] : List Nat), ∃ j, j < t.fields.length ∧
        (t.fields.getD j default).id = eid ∧ (t.fields.getD j default).en = 0 ∧
        (t.fields.getD j default).flags.scope = true ∧
        (t.fields.getD j default).flags.last_ie = true ∧
        ∀ k, k < j →
          ¬((t.fields.getD k default).id = eid ∧ (t.fields.getD k default).en = 0) := by
  unfold eproc_eid_found fds_template_find fds_template_cfind
  rw [List.any_eq_true]
  constructor
  · rintro ⟨eid, heid, hmatch⟩
    cases hfind : t.fields.find? (fun f => f.id == eid && f.en == 0) with
    | none =>
      rw [hfind] at hmatch
      cases hmatch
    | some f =>
      rw [hfind] at hmatch
      obtain ⟨j, hj, hget, hpf, hmin⟩ := (find?_eq_some_idx _ t.fields f).mp hfind
      simp only [Bool.and_eq_true, beq_iff_eq] at hpf
      refine ⟨eid, heid, j, hj, ?_, ?_, ?_, ?_, ?_⟩
      · rw [hget]
        exact hpf.1
      · rw [hget]
        exact hpf.2
      · rw [hget]
        exact (Bool.and_eq_true _ _).mp hmatch |>.1
      · rw [hget]
        exact (Bool.and_eq_true _ _).mp hmatch |>.2
      · intro k hk hcontra
        have hx := hmin k hk
        simp only [hcontra.1, hcontra.2, beq_self_eq_true, Bool.and_self] at hx
        exact Bool.noConfusion hx
  · rintro ⟨eid, heid, j, hj, hid, hen, hsc, hli, hmin⟩
    refine ⟨eid, heid, ?_⟩
    have hfind : t.fields.find? (fun f => f.id == eid && f.en == 0) =
        some (t.fields.getD j default) := by
      rw [find?_eq_some_idx]
      refine ⟨j, hj, rfl, ?_, ?_⟩
      · simp only [Bool.and_eq_true, beq_iff_eq]
        exact ⟨hid, hen⟩
      · intro k hk
        have hthis := hmin k hk
        by_cases h1 : (t.fields.getD k default).id = eid
        · by_cases h2 : (t.fields.getD k default).en = 0
          · exact absurd ⟨h1, h2⟩ hthis
          · show (_ && _) = false
            rw [beq_eq_false_iff_ne.mpr h2, Bool.and_false]
        · show (_ && _) = false
          rw [beq_eq_false_iff_ne.mpr h1, Bool.false_and]
    rw [hfind]
    show ((t.fields.getD j default).flags.scope &&
      (t.fields.getD j default).flags.last_ie) = true
    rw [hsc, hli]
    rfl

/-- `opts_has_required` declaratively. -/
theorem opts_has_required_iff (t : fds_template) (recs : List opts_req_id) :
    opts_has_required t recs = true ↔
      ∀ r ∈ recs, ∃ f ∈ t.fields.drop t.fields_cnt_scope,
        f.id = r.id ∧ f.en = r.en := by
  unfold opts_has_required
  simp [List.all_eq_true, List.any_eq_true]

/-- The counting loop of `opts_has_obs_time`, closed form. -/
theorem opts_obs_time_loop_eq :
    ∀ (l : List fds_tfield) (m : Nat),
      opts_obs_time_loop l m =
        decide (m + (l.filter
          (fun f => decide (f.en = 0 ∧ 322 ≤ f.id ∧ f.id ≤ 325))).length = 2) := by
  intro l
  induction l with
  | nil =>
    intro m
    show (m == 2) = decide (m = 2)
    by_cases hm : m = 2
    · rw [decide_eq_true hm, hm]
      rfl
    · rw [decide_eq_false hm, beq_eq_false_iff_ne.mpr hm]
  | cons f rest ih =>
    intro m
    simp only [opts_obs_time_loop]
    by_cases hen : f.en ≠ 0
    · rw [if_pos hen, ih m]
      rw [List.filter_cons_of_neg (by simp; intro h; exact absurd h hen)]
    · rw [if_neg hen]
      by_cases hid : f.id < 322 ∨ f.id > 325
      · rw [if_pos hid, ih m]
        rw [List.filter_cons_of_neg (by simp; intro h1 h2; omega)]
      · rw [if_neg hid]
        rw [List.filter_cons_of_pos (by simp; push_neg at hen hid; omega)]
        simp only [List.length_cons]
        by_cases hm : m + 1 > 2
        · rw [if_pos hm]
          symm
          rw [decide_eq_false (by omega)]
        · rw [if_neg hm, ih (m + 1)]
          exact decide_eq_decide.mpr (by omega)

/-- `opts_has_obs_time` declaratively: exactly two matching non-scope fields. -/
theorem opts_has_obs_time_iff (t : fds_template) :
    opts_has_obs_time t = true ↔
      ((t.fields.drop t.fields_cnt_scope).filter
        (fun f => decide (f.en = 0 ∧ 322 ≤ f.id ∧ f.id ≤ 325))).length = 2 := by
  unfold opts_has_obs_time
  rw [opts_obs_time_loop_eq]
  simp

theorem opts_detect_mproc_types_eproc (t : fds_template) :
    (opts_detect_mproc_types t).eproc_reliability_stat =
      t.opts_types.eproc_reliability_stat := by
  simp only [opts_detect_mproc_types]
  repeat' split
  all_goals rfl

theorem opts_detect_flowkey_types_eproc (t : fds_template) :
    (opts_detect_flowkey_types t).eproc_reliability_stat =
      t.opts_types.eproc_reliability_stat := by
  simp only [opts_detect_flowkey_types]
  repeat' split
  all_goals rfl

theorem opts_detect_ietype_types_eproc (t : fds_template) :
    (opts_detect_ietype_types t).eproc_reliability_stat =
      t.opts_types.eproc_reliability_stat := by
  simp only [opts_detect_ietype_types]
  repeat' split
  all_goals rfl

theorem opts_detect_eproc_types_val (t : fds_template) :
    (opts_detect_eproc_types t).eproc_reliability_stat =
      (t.opts_types.eproc_reliability_stat ||
        (eproc_eid_found t &&
          (opts_has_required t [⟨166, 0⟩, ⟨167, 0⟩, ⟨168, 0⟩] &&
            opts_has_obs_time t))) := by
  simp only [opts_detect_eproc_types]
  cases hf : eproc_eid_found t <;>
    cases hr : opts_has_required t [⟨166, 0⟩, ⟨167, 0⟩, ⟨168, 0⟩] <;>
      cases ho : opts_has_obs_time t <;>
        simp [hf, hr, ho]

theorem opts_detector_eproc (t : fds_template) :
    (opts_detector t).opts_types.eproc_reliability_stat =
      (t.opts_types.eproc_reliability_stat ||
        (eproc_eid_found t &&
          (opts_has_required t [⟨166, 0⟩, ⟨167, 0⟩, ⟨168, 0⟩] &&
            opts_has_obs_time t))) := by
  show (opts_detect_ietype_types
    (opts_detect_flowkey (opts_detect_eproc (opts_detect_mproc t)))).eproc_reliability_stat = _
  rw [opts_detect_ietype_types_eproc]
  show (opts_detect_flowkey_types
    (opts_detect_eproc (opts_detect_mproc t))).eproc_reliability_stat = _
  rw [opts_detect_flowkey_types_eproc]
  show (opts_detect_eproc_types (opts_detect_mproc t)).eproc_reliability_stat = _
  rw [opts_detect_eproc_types_val]
  show ((opts_detect_mproc_types t).eproc_reliability_stat ||
    (eproc_eid_found t &&
      (opts_has_required t [⟨166, 0⟩, ⟨167, 0⟩, ⟨168, 0⟩] && opts_has_obs_time t))) = _
  rw [opts_detect_mproc_types_eproc]

/--
**C5** (amended).  The classifier sets EPROC_RELIABILITY_STAT iff it was
already set, or: some IE among {130, 131, 144} (en = 0) has its
*lowest-index* occurrence in the field list carrying both SCOPE and
LAST_IE (the code inspects only the first occurrence returned by
`fds_template_find`, not an arbitrary occurrence as the original claim
states), the non-scope fields include all of {166, 167, 168} (en = 0),
and exactly two non-scope fields have en = 0 and id in {322, ..., 325}.
-/
theorem claim_C5 (t : fds_template) :
    (opts_detector t).opts_types.eproc_reliability_stat = true ↔
      (t.opts_types.eproc_reliability_stat = true ∨
        ((∃ eid ∈ ([130, 131, 144] : List Nat), ∃ j, j < t.fields.length ∧
            (t.fields.getD j default).id = eid ∧ (t.fields.getD j default).en = 0 ∧
            (t.fields.getD j default).flags.scope = true ∧
            (t.fields.getD j default).flags.last_ie = true ∧
            ∀ k, k < j →
              ¬((t.fields.getD k default).id = eid ∧
                (t.fields.getD k default).en = 0)) ∧
          (∀ r ∈ ([⟨166, 0⟩, ⟨167, 0⟩, ⟨168, 0⟩] : List opts_req_id),
            ∃ f ∈ t.fields.drop t.fields_cnt_scope, f.id = r.id ∧ f.en = r.en) ∧
          ((t.fields.drop t.fields_cnt_scope).filter
            (fun f => decide (f.en = 0 ∧ 322 ≤ f.id ∧ f.id ≤ 325))).length = 2)) := by
  rw [opts_detector_eproc]
  simp only [Bool.or_eq_true, Bool.and_eq_true]
  rw [eproc_eid_found_iff, opts_has_required_iff, opts_has_obs_time_iff]

end LibFds
